import Mathlib

/-!
A verification development for the ImperiumEngine trading DSL.

The definitions below are a shallow embedding of the Python sources under
`src/imperiumengine/dsl/`:

* `utils.py` (the indicator library) is embedded as pure functions over
  lists of rationals; Python numbers (int/float) are modelled by `Rat`,
  and a Python function that can raise is modelled as returning
  `Except Err _`.  `Err` distinguishes the DSL error class (`DSLError`)
  from native Python exceptions (`TypeError`, `ZeroDivisionError`,
  `IndexError`, ...), since several properties are about which class of
  error escapes.
* string messages are transliterated to plain ASCII without quote
  characters; only their identity and distinctness matter to the proofs.
-/

namespace ImperiumEngine

/-- Python exception classes relevant to the DSL core.  `dslError` is the
project's own `DSLError`; the others are native Python exceptions that the
DSL never catches.  `fuelExhausted` is an artifact of the fuel-based
modelling of while-loops further below; it is never produced when a
function is run with sufficient fuel. -/
inductive Err where
  | dslError (msg : String)
  | typeError (msg : String)
  | zeroDivisionError
  | indexError
  | statisticsError
  | fuelExhausted
  deriving DecidableEq, Repr

/-- Python `lst[-k:]` for `k ≥ 1` (the last `k` elements; the whole list if
`k` exceeds the length).  For `k = 0` Python returns the whole list, but
every use below divides by the period first, raising `ZeroDivisionError`
before the value could matter. -/
def takeLast (k : Nat) (l : List ℚ) : List ℚ := l.drop (l.length - k)

/-- `compute_sma` from `dsl/utils.py`: mean of the last `period` prices. -/
def computeSma (prices : List ℚ) (period : Nat) : Except Err ℚ :=
  if prices.length < period then
    .error (.dslError ("Not enough data to calculate SMA with period " ++ toString period ++ "."))
  else if period = 0 then
    -- Python: sum(prices[-0:]) / 0 raises ZeroDivisionError
    .error .zeroDivisionError
  else
    .ok ((takeLast period prices).sum / period)

/-- One smoothing step of `compute_ema`: `ema = price * k + ema * (1 - k)`. -/
def emaStep (k : ℚ) (ema price : ℚ) : ℚ := price * k + ema * (1 - k)

/-- `compute_ema` from `dsl/utils.py`: SMA of the first `period` prices as
seed, then the smoothing recurrence over the remaining prices. -/
def computeEma (prices : List ℚ) (period : Nat) : Except Err ℚ :=
  if prices.length < period then
    .error (.dslError ("Not enough data to calculate EMA with period " ++ toString period ++ "."))
  else
    let k : ℚ := 2 / (period + 1)
    (computeSma (prices.take period) period).map fun seed =>
      (prices.drop period).foldl (emaStep k) seed

/-- The list of post-seed EMA values appended by the loop of
`compute_ema_series`. -/
def emaFold (k : ℚ) : ℚ → List ℚ → List ℚ
  | _, [] => []
  | ema, p :: rest =>
    let e := emaStep k ema p
    e :: emaFold k e rest

/-- `compute_ema_series` from `dsl/utils.py`: every post-seed EMA value,
one per price after the first `period` prices. -/
def computeEmaSeries (prices : List ℚ) (period : Nat) : Except Err (List ℚ) :=
  if prices.length < period then
    .error (.dslError ("Not enough data to calculate EMA series with period " ++ toString period ++ "."))
  else
    let k : ℚ := 2 / (period + 1)
    (computeSma (prices.take period) period).map fun seed =>
      emaFold k seed (prices.drop period)

/-- The true-range list of `compute_atr`:
`max(high[i]-low[i], |high[i]-close[i-1]|, |low[i]-close[i-1]|)` for
`i = 1 .. len(closes)-1`; indexing past the end of `highs`/`lows` is a
Python `IndexError`. -/
def trueRanges (highs lows closes : List ℚ) : Except Err (List ℚ) :=
  (List.range (closes.length - 1)).mapM fun j =>
    -- j ranges over 0 .. len(closes)-2; Python index i = j+1
    let i := j + 1
    match highs.get? i, lows.get? i, closes.get? (i - 1) with
    | some h, some l, some c => .ok (max (h - l) (max |h - c| |l - c|))
    | _, _, _ => .error .indexError

/-- `compute_atr` from `dsl/utils.py`. -/
def computeAtr (highs lows closes : List ℚ) (period : Nat) : Except Err ℚ :=
  if closes.length < period + 1 then
    .error (.dslError ("Not enough data to calculate ATR with period " ++ toString period ++ "."))
  else do
    let trs ← trueRanges highs lows closes
    if trs.length < period then
      .error (.dslError ("Not enough TR values to calculate ATR with period " ++ toString period ++ "."))
    else if period = 0 then
      .error .zeroDivisionError
    else
      .ok ((takeLast period trs).sum / period)

/-- Result of `compute_bollinger_bands`.  `statistics.stdev` is an
irrational square root, which has no rational value; the result is kept
symbolically as the middle band, the sample variance (`stdev²`) of the
last `period` prices, and the multiplier, from which
`upper/lower = middle ± multiplier * sqrt variance`. -/
structure BollingerResult where
  middle : ℚ
  variance : ℚ
  multiplier : ℚ
  deriving DecidableEq, Repr

/-- Sample variance of a list (denominator `n - 1`), the square of
`statistics.stdev`. -/
def sampleVariance (l : List ℚ) : ℚ :=
  let n : ℚ := l.length
  let mean := l.sum / n
  (l.map fun x => (x - mean) ^ 2).sum / (n - 1)

/-- `compute_bollinger_bands` from `dsl/utils.py`.  `statistics.stdev`
raises `StatisticsError` on fewer than two data points. -/
def computeBollingerBands (prices : List ℚ) (period : Nat) (multiplier : ℚ) :
    Except Err BollingerResult :=
  if prices.length < period then
    .error (.dslError ("Not enough data to calculate Bollinger Bands with period " ++ toString period ++ "."))
  else do
    let middle ← computeSma prices period
    if (takeLast period prices).length < 2 then
      .error .statisticsError
    else
      .ok ⟨middle, sampleVariance (takeLast period prices), multiplier⟩

/-- Result record of `compute_macd`. -/
structure MacdResult where
  macd : ℚ
  signal : ℚ
  histogram : ℚ
  deriving DecidableEq, Repr

/-- `compute_macd` from `dsl/utils.py`.  Note the order of operations:
`macd_series[-1]` is read (a potential native `IndexError` on an empty
series) before the signal EMA series is computed. -/
def computeMacd (prices : List ℚ) (fast slow signal : Nat) : Except Err MacdResult :=
  if prices.length < slow then
    .error (.dslError "Not enough data to calculate MACD.")
  else do
    let emaFast ← computeEmaSeries prices fast
    let emaSlow ← computeEmaSeries prices slow
    -- zip(ema_fast[-len(ema_slow):], ema_slow): zip truncates to the
    -- shorter list, so taking the last `len(ema_slow)` elements of the
    -- fast series gives the same pairs as Python (including the
    -- `[-0:]` = whole-list quirk, which zip with [] collapses to []).
    let macdSeries := List.zipWith (· - ·) (emaFast.drop (emaFast.length - emaSlow.length)) emaSlow
    match macdSeries.getLast? with
    | none => .error .indexError   -- macd_series[-1] on an empty list
    | some macdLast => do
        let signalSeries ← computeEmaSeries macdSeries signal
        match signalSeries.getLast? with
        | none => .error .indexError
        | some signalLast => .ok ⟨macdLast, signalLast, macdLast - signalLast⟩

/-- The per-step gains of `compute_rsi`: `max(delta, 0)`. -/
def rsiGains (prices : List ℚ) : List ℚ :=
  (prices.zip (prices.drop 1)).map fun pq => max (pq.2 - pq.1) 0

/-- The per-step losses of `compute_rsi`: `abs (min (delta, 0))`. -/
def rsiLosses (prices : List ℚ) : List ℚ :=
  (prices.zip (prices.drop 1)).map fun pq => |min (pq.2 - pq.1) 0|

/-- Wilder smoothing step: `avg = (avg * (period - 1) + new) / period`. -/
def wilderStep (period : ℚ) (avg new : ℚ) : ℚ := (avg * (period - 1) + new) / period

/-- The smoothed average gain of `compute_rsi`: seed mean of the first
`period` gains, then Wilder smoothing over the remaining gains. -/
def rsiAvgGain (prices : List ℚ) (period : Nat) : ℚ :=
  let gains := rsiGains prices
  ((gains.drop period).foldl (wilderStep period) ((gains.take period).sum / period))

/-- The smoothed average loss of `compute_rsi`. -/
def rsiAvgLoss (prices : List ℚ) (period : Nat) : ℚ :=
  let losses := rsiLosses prices
  ((losses.drop period).foldl (wilderStep period) ((losses.take period).sum / period))

/-- `compute_rsi` from `dsl/utils.py`. -/
def computeRsi (prices : List ℚ) (period : Nat) : Except Err ℚ :=
  if prices.length < period + 1 then
    .error (.dslError "Not enough data to calculate RSI.")
  else if period = 0 then
    -- Python: sum(gains[:0]) / 0 raises ZeroDivisionError
    .error .zeroDivisionError
  else if rsiAvgLoss prices period = 0 then
    .ok 100
  else
    .ok (100 - 100 / (1 + rsiAvgGain prices period / rsiAvgLoss prices period))

/-! ## Safe evaluator (`dsl/evaluator.py`)

The evaluator walks a Python AST.  The AST of expressions is embedded as
`Expr`; every node kind for which `SafeEvaluator` defines a `visit_*`
method has its own constructor, and every node kind it does not handle
(lambda, attribute access, subscript, comprehension, list/tuple/dict
display, ...) is represented by `Expr.other kind children`, which
`generic_visit` rejects from the node kind alone, without looking at the
children.  Values are Python's dynamically typed values with numbers
modelled as rationals. -/

/-- The five allow-listed logical functions installed by `safe_eval_expr`. -/
inductive LogicalFn where
  | impliesF | iffF | xorF | nandF | norF
  deriving DecidableEq, Repr

/-- Python runtime values as the evaluator can produce or consume them. -/
inductive Value where
  | none
  | bool (b : Bool)
  | num (q : ℚ)
  | str (s : String)
  | list (l : List Value)
  | builtin (f : LogicalFn)
  deriving Repr

/-- Python truthiness. -/
def truthy : Value → Bool
  | .none => false
  | .bool b => b
  | .num q => q ≠ 0
  | .str s => s ≠ ""
  | .list l => !l.isEmpty
  | .builtin _ => true

/-- Numeric view: Python treats `bool` as an `int` in arithmetic. -/
def toNumQ : Value → Option ℚ
  | .bool b => some (if b then 1 else 0)
  | .num q => some q
  | _ => Option.none

mutual
/-- Python `==` on the value domain (never raises for these types). -/
def pyEq : Value → Value → Bool
  | .none, .none => true
  | .str a, .str b => a = b
  | .builtin f, .builtin g => f = g
  | .list a, .list b => pyEqList a b
  | a, b =>
    match toNumQ a, toNumQ b with
    | some x, some y => x = y
    | _, _ => false

/-- Elementwise `==` of Python lists. -/
def pyEqList : List Value → List Value → Bool
  | [], [] => true
  | a :: as', b :: bs' => pyEq a b && pyEqList as' bs'
  | _, _ => false
end

mutual
/-- Python `<` on the value domain; mixed or unordered types raise
`TypeError`. -/
def pyLt : Value → Value → Except Err Bool
  | .str a, .str b => .ok (decide (a < b))
  | .list a, .list b => pyLtList a b
  | a, b =>
    match toNumQ a, toNumQ b with
    | some x, some y => .ok (decide (x < y))
    | _, _ => .error (.typeError "unorderable types")

/-- Lexicographic `<` of Python lists. -/
def pyLtList : List Value → List Value → Except Err Bool
  | [], [] => .ok false
  | [], _ :: _ => .ok true
  | _ :: _, [] => .ok false
  | a :: as', b :: bs' =>
    if pyEq a b then pyLtList as' bs' else pyLt a b
end

/-- Python `<=` for these types: `a <= b  ↔  a < b ∨ a == b`. -/
def pyLe (a b : Value) : Except Err Bool :=
  (pyLt a b).map fun l => l || pyEq a b

/-- String repetition for `str * int`. -/
def strRepeat (s : String) (n : Nat) : String :=
  (List.replicate n s).foldl (· ++ ·) ""

/-- Integer view (`bool` or an integral `num`), used by `str * int` and
`list * int`. -/
def toIntZ : Value → Option ℤ
  | .bool b => some (if b then 1 else 0)
  | .num q => if q.den = 1 then some q.num else Option.none
  | _ => Option.none

/-- Binary operator kinds of `visit_binop`; kinds outside the supported
six are rejected by name. -/
inductive BinOpK where
  | add | sub | mult | div | mod | pow
  | unsupported (name : String)
  deriving DecidableEq, Repr

/-- Python `+` on the value domain. -/
def pyAdd (a b : Value) : Except Err Value :=
  match a, b with
  | .str x, .str y => .ok (.str (x ++ y))
  | .list x, .list y => .ok (.list (x ++ y))
  | _, _ =>
    match toNumQ a, toNumQ b with
    | some x, some y => .ok (.num (x + y))
    | _, _ => .error (.typeError "unsupported operand types for +")

/-- Python `*` on the value domain. -/
def pyMult (a b : Value) : Except Err Value :=
  match a, b with
  | .str x, v | v, .str x =>
    match toIntZ v with
    | some n => .ok (.str (strRepeat x n.toNat))
    | _ => .error (.typeError "unsupported operand types for *")
  | .list x, v | v, .list x =>
    match toIntZ v with
    | some n => .ok (.list (List.flatten (List.replicate n.toNat x)))
    | _ => .error (.typeError "unsupported operand types for *")
  | _, _ =>
    match toNumQ a, toNumQ b with
    | some x, some y => .ok (.num (x * y))
    | _, _ => .error (.typeError "unsupported operand types for *")

/-- Evaluate one supported binary operator; the operands have already been
evaluated (as in `visit_binop`, which visits both children before
dispatching on the operator). -/
def evalBinOp (op : BinOpK) (a b : Value) : Except Err Value :=
  match op with
  | .add => pyAdd a b
  | .mult => pyMult a b
  | .sub =>
    match toNumQ a, toNumQ b with
    | some x, some y => .ok (.num (x - y))
    | _, _ => .error (.typeError "unsupported operand types for -")
  | .div =>
    match toNumQ a, toNumQ b with
    | some x, some y =>
      if y = 0 then .error .zeroDivisionError else .ok (.num (x / y))
    | _, _ => .error (.typeError "unsupported operand types for /")
  | .mod =>
    match toNumQ a, toNumQ b with
    | some x, some y =>
      if y = 0 then .error .zeroDivisionError
      else .ok (.num (x - y * ⌊x / y⌋))
    | _, _ => .error (.typeError "unsupported operand types for %")
  | .pow =>
    match toNumQ a, toNumQ b with
    | some x, some y =>
      if y.den = 1 then
        if x = 0 ∧ y.num < 0 then .error .zeroDivisionError
        else .ok (.num (x ^ y.num))
      else
        -- A fractional exponent yields an irrational (or complex) result,
        -- outside the rational value model; no claim exercises it.
        .error (.typeError "non-integer exponent outside the rational model")
    | _, _ => .error (.typeError "unsupported operand types for **")
  | .unsupported name =>
    .error (.dslError ("Binary operator " ++ name ++ " is not supported."))

/-- Unary operator kinds of `visit_unaryop`. -/
inductive UnOpK where
  | uadd | usub | notOp
  | unsupported (name : String)
  deriving DecidableEq, Repr

/-- Evaluate one unary operator on an already-evaluated operand. -/
def evalUnOp (op : UnOpK) (v : Value) : Except Err Value :=
  match op with
  | .uadd =>
    match toNumQ v with
    | some x => .ok (.num x)
    | _ => .error (.typeError "bad operand type for unary +")
  | .usub =>
    match toNumQ v with
    | some x => .ok (.num (-x))
    | _ => .error (.typeError "bad operand type for unary -")
  | .notOp => .ok (.bool (!truthy v))
  | .unsupported name =>
    .error (.dslError ("Unary operator " ++ name ++ " is not supported."))

/-- Boolean operator kinds of `visit_boolop`. -/
inductive BoolOpK where
  | andOp | orOp
  deriving DecidableEq, Repr

/-- Comparison operator kinds of `visit_compare`. -/
inductive CmpOpK where
  | gt | gte | lt | lte | eq | notEq
  | unsupported (name : String)
  deriving DecidableEq, Repr

/-- Whether one comparison link holds, as `visit_compare` tests it (each
branch early-returns `False` when the negated comparison holds). -/
def evalCmpOp (op : CmpOpK) (l r : Value) : Except Err Bool :=
  match op with
  | .gt => (pyLe l r).map (!·)      -- if left <= right: return False
  | .gte => (pyLt l r).map (!·)     -- if left < right: return False
  | .lt => (pyLe r l).map (!·)      -- if left >= right: return False
  | .lte => (pyLt r l).map (!·)     -- if left > right: return False
  | .eq => .ok (pyEq l r)           -- if left != right: return False
  | .notEq => .ok (!pyEq l r)       -- if left == right: return False
  | .unsupported name =>
    .error (.dslError ("Comparison operator " ++ name ++ " is not supported."))

/-- The restricted expression AST.  `other` stands for every Python AST
node kind without a `visit_*` method on `SafeEvaluator` (Lambda,
Attribute, Subscript, ListComp, Dict, List, Tuple, IfExp, ...);
`generic_visit` rejects it from the kind name alone. -/
inductive Expr where
  | constant (v : Value)
  | name (id : String)
  | binop (left : Expr) (op : BinOpK) (right : Expr)
  | unaryop (op : UnOpK) (operand : Expr)
  | boolop (op : BoolOpK) (values : List Expr)
  | compare (left : Expr) (pairs : List (CmpOpK × Expr))
  | call (func : Expr) (args : List Expr) (keywords : List (Option String × Expr))
  | other (kind : String) (children : List Expr)
  deriving Repr

/-- Variable mappings, in insertion order (Python `dict`). -/
def Ctx := List (String × Value)

/-- Dictionary lookup. -/
def lookupCtx (ctx : Ctx) (k : String) : Option Value :=
  (List.find? (fun p => p.1 = k) ctx).map (·.2)

/-- Dictionary assignment `d[k] = v`: overwrite in place, or append. -/
def setKey (ctx : Ctx) (k : String) (v : Value) : Ctx :=
  match ctx with
  | [] => [(k, v)]
  | (k', v') :: rest => if k' = k then (k, v) :: rest else (k', v') :: setKey rest k v

/-- `ALLOWED_FUNCTIONS` of `SafeEvaluator`. -/
def allowedFunctions : List String := ["implies", "iff", "xor", "nand", "nor"]

/-- Python `x and y` as a value (the deciding operand itself). -/
def pyAndV (x y : Value) : Value := if truthy x then y else x

/-- Python `x or y` as a value. -/
def pyOrV (x y : Value) : Value := if truthy x then x else y

/-- Python `not x`. -/
def pyNotV (x : Value) : Value := .bool (!truthy x)

/-- Bodies of the five lambdas installed by `safe_eval_expr`. -/
def applyLogical : LogicalFn → Value → Value → Value
  | .impliesF, x, y => pyOrV (pyNotV x) y
  | .iffF, x, y => pyOrV (pyAndV x y) (pyAndV (pyNotV x) (pyNotV y))
  | .xorF, x, y => pyOrV (pyAndV x (pyNotV y)) (pyAndV (pyNotV x) y)
  | .nandF, x, y => pyNotV (pyAndV x y)
  | .norF, x, y => pyNotV (pyOrV x y)

/-- Bind call arguments to the parameter list `(x, y)` of the lambdas
(positional first, then keywords; any mismatch is a `TypeError`). -/
def bindLogicalArgs (args : List Value) (kws : List (String × Value)) :
    Except Err (Value × Value) :=
  match args with
  | [x, y] => if kws.isEmpty then .ok (x, y) else .error (.typeError "argument mismatch")
  | [x] =>
    match List.find? (fun p => p.1 = "y") kws, kws.length with
    | some p, 1 => .ok (x, p.2)
    | _, _ => .error (.typeError "argument mismatch")
  | [] =>
    match List.find? (fun p => p.1 = "x") kws,
          List.find? (fun p => p.1 = "y") kws, kws.length with
    | some px, some py, 2 => .ok (px.2, py.2)
    | _, _, _ => .error (.typeError "argument mismatch")
  | _ => .error (.typeError "argument mismatch")

/-- `func(*args, **kwargs)` on an evaluated callee: only the five installed
lambdas are callable values; anything else raises `TypeError`. -/
def callValue (fv : Value) (args : List Value) (kws : List (String × Value)) :
    Except Err Value :=
  match fv with
  | .builtin f => (bindLogicalArgs args kws).map fun xy => applyLogical f xy.1 xy.2
  | _ => .error (.typeError "object is not callable")

mutual
/-- `SafeEvaluator.visit`: dispatch on the node kind.  Node kinds without
a `visit_*` method fall to the `other` case (`generic_visit`), which
raises from the kind name alone — the children are never evaluated.
Likewise a call to a function outside the allow-list raises before its
arguments are evaluated. -/
def visit : Expr → Ctx → Except Err Value
  | .constant v, _ => .ok v
  | .name id, ctx =>
    match lookupCtx ctx id with
    | some v => .ok v
    | Option.none => .error (.dslError ("Variable " ++ id ++ " not found in context."))
  | .binop l op r, ctx => do
    let lv ← visit l ctx
    let rv ← visit r ctx
    evalBinOp op lv rv
  | .unaryop op e, ctx => do
    let v ← visit e ctx
    evalUnOp op v
  | .boolop .andOp values, ctx => visitAnd values ctx
  | .boolop .orOp values, ctx => visitOr values ctx
  | .compare l pairs, ctx => do
    let lv ← visit l ctx
    visitCmpChain lv pairs ctx
  | .call (.name fname) args kws, ctx =>
    if fname ∈ allowedFunctions then do
      let argVals ← visitArgs args ctx
      let kwVals ← visitKeywords kws ctx
      match lookupCtx ctx fname with
      | Option.none => .error (.dslError ("Function " ++ fname ++ " not found in context."))
      | some fv => callValue fv argVals kwVals
    else
      .error (.dslError ("Function call " ++ fname ++ " is not permitted."))
  | .call _ _ _, _ => .error (.dslError "Only simple function calls are allowed.")
  | .other kind _, _ =>
    .error (.dslError ("AST node " ++ kind ++ " is not permitted in safe expressions."))

/-- The `ast.And` loop of `visit_boolop`: stop with `False` at the first
falsy operand, else `True`. -/
def visitAnd : List Expr → Ctx → Except Err Value
  | [], _ => .ok (.bool true)
  | v :: rest, ctx => do
    let x ← visit v ctx
    if truthy x then visitAnd rest ctx else .ok (.bool false)

/-- The `ast.Or` loop of `visit_boolop`: stop with `True` at the first
truthy operand, else `False`. -/
def visitOr : List Expr → Ctx → Except Err Value
  | [], _ => .ok (.bool false)
  | v :: rest, ctx => do
    let x ← visit v ctx
    if truthy x then .ok (.bool true) else visitOr rest ctx

/-- The pairwise loop of `visit_compare`: each comparator is evaluated,
then the link tested; the first failing link returns `False`. -/
def visitCmpChain : Value → List (CmpOpK × Expr) → Ctx → Except Err Value
  | _, [], _ => .ok (.bool true)
  | left, (op, cmp) :: rest, ctx => do
    let right ← visit cmp ctx
    let holds ← evalCmpOp op left right
    if holds then visitCmpChain right rest ctx else .ok (.bool false)

/-- Evaluate positional call arguments left to right. -/
def visitArgs : List Expr → Ctx → Except Err (List Value)
  | [], _ => .ok []
  | a :: rest, ctx => do
    let v ← visit a ctx
    let vs ← visitArgs rest ctx
    .ok (v :: vs)

/-- Evaluate keyword arguments; a `**kwargs` entry (`kw.arg is None`) is
silently dropped before its value would be evaluated, as in the dict
comprehension of `visit_call`. -/
def visitKeywords : List (Option String × Expr) → Ctx → Except Err (List (String × Value))
  | [], _ => .ok []
  | (Option.none, _) :: rest, ctx => visitKeywords rest ctx
  | (some n, e) :: rest, ctx => do
    let v ← visit e ctx
    let vs ← visitKeywords rest ctx
    .ok ((n, v) :: vs)
end

/-- A short printed form of an error, standing in for Python's `str(e)`
inside wrapped messages. -/
def errText : Err → String
  | .dslError m => m
  | .typeError m => m
  | .zeroDivisionError => "division by zero"
  | .indexError => "list index out of range"
  | .statisticsError => "stdev requires at least two data points"
  | .fuelExhausted => "fuel exhausted"

/-- The `local_context` built by `safe_eval_expr`: a copy of the caller's
mapping with the five logical functions installed (overwriting any entries
of the same name). -/
def setLogicals (ctx : Ctx) : Ctx :=
  setKey (setKey (setKey (setKey (setKey ctx
    "implies" (.builtin .impliesF))
    "iff" (.builtin .iffF))
    "xor" (.builtin .xorF))
    "nand" (.builtin .nandF))
    "nor" (.builtin .norF)

/-- `safe_eval_expr` from the already-parsed AST on: install the logical
functions, visit, and wrap any failure in a `DSLError` (the one uniform
error kind of the evaluator). -/
def safeEvalAst (e : Expr) (ctx : Ctx) : Except Err Value :=
  match visit e (setLogicals ctx) with
  | .ok v => .ok v
  | .error err =>
    .error (.dslError ("Error in safe evaluation of expression: " ++ errText err))

/-- Statements as `safe_exec_statement` distinguishes them: a (possibly
multi-target) assignment, a bare expression, or any other statement kind
(`other`), which is rejected from the kind alone. -/
inductive PyStmt where
  | assign (targets : List Expr) (value : Expr)
  | exprStmt (value : Expr)
  | other (kind : String)
  deriving Repr

/-- `safe_exec_statement` from the parsed module body on.  The result is
the raised error (if any) alongside the resulting mapping; the mapping is
written only by the assignment case, after the right-hand side evaluated
successfully.  The `print` sink itself is modelled as a pure no-op. -/
def safeExecStatement (body : List PyStmt) (ctx : Ctx) : Option Err × Ctx :=
  match body with
  | [stmt] =>
    match stmt with
    | .assign targets value =>
      match targets with
      | [.name varName] =>
        (match visit value ctx with
         | .error e => (some e, ctx)
         | .ok v => (Option.none, setKey ctx varName v))
      | _ => (some (.dslError "Assignment target must be a single variable."), ctx)
    | .exprStmt e =>
      match e with
      | .call (.name fname) args kws =>
        if fname = "print" then
          match visitArgs args ctx with
          | .error e => (some e, ctx)
          | .ok _ =>
            match visitKeywords kws ctx with
            | .error e => (some e, ctx)
            | .ok _ => (Option.none, ctx)
        else
          (some (.dslError "Only print function calls are permitted."), ctx)
      | .call _ _ _ => (some (.dslError "Only print function calls are permitted."), ctx)
      | _ => (some (.dslError "Only function calls are permitted in expressions."), ctx)
    | .other _ =>
      (some (.dslError "Only simple assignments or permitted function calls are allowed."), ctx)
  | _ => (some (.dslError "Only one statement is permitted."), ctx)

/-! ## The Unicode-operator rewriting of `safe_eval_expr`

`safe_eval_expr` first rewrites the five Unicode infix tokens with
`re.sub(r"(\S+)\s*TOK\s*(\S+)", r"fname(\1, \2)", expr)`, one pass per
token, in the order `→ ↔ ⊕ ↑ ↓`.  The functions below model this exact
regex substitution: a scan over the string that, at each position,
attempts the pattern with the regex's greedy, backtracking first group
(the maximal run of non-whitespace characters, shortened from the right
until the literal token follows), and on a match emits the replacement
and resumes after the match. -/

/-- Python's `\s` character class (ASCII part). -/
def isPySpace (c : Char) : Bool :=
  c = ' ' || c = '\t' || c = '\n' || c = '\r' || c = Char.ofNat 11 || c = Char.ofNat 12

/-- Backtracking over the first group `(\S+)`.  `g1rev` is the current
candidate for group 1 in reverse; `after` is the rest of the string.  The
longest candidate is tried first; on failure the last character is given
back.  A successful attempt requires `\s*`, the literal token, `\s*`, and
a nonempty run of non-whitespace for group 2. -/
def tryShrink (T : Char) : List Char → List Char → Option (List Char × List Char × List Char)
  | [], _ => Option.none
  | lastC :: restRev, after =>
    let g1rev := lastC :: restRev
    let afterSp := after.dropWhile isPySpace
    let attempt :=
      match afterSp with
      | c :: tail =>
        if c = T then
          let tail2 := tail.dropWhile isPySpace
          let g2 := tail2.takeWhile (fun ch => !isPySpace ch)
          if g2.isEmpty then Option.none
          else some (g1rev.reverse, g2, tail2.drop g2.length)
        else Option.none
      | [] => Option.none
    match attempt with
    | some r => some r
    | Option.none => tryShrink T restRev (lastC :: after)

/-- One attempted match of `(\S+)\s*T\s*(\S+)` anchored at the current
position; returns the two groups and the remainder after the match. -/
def tryMatchAt (T : Char) (cs : List Char) : Option (List Char × List Char × List Char) :=
  let run := cs.takeWhile (fun ch => !isPySpace ch)
  tryShrink T run.reverse (cs.drop run.length)

/-- The `re.sub` scan: try a match at each position left to right,
replacing non-overlapping matches with `fname(g1, g2)` and resuming after
each match.  The fuel equals the input length at the top entry; every
step consumes at least one character, so it is never exhausted. -/
def subScan (T : Char) (fname : List Char) : Nat → List Char → List Char
  | 0, cs => cs
  | _ + 1, [] => []
  | fuel + 1, c :: rest =>
    match tryMatchAt T (c :: rest) with
    | some (g1, g2, rem) =>
      fname ++ '(' :: (g1 ++ ',' :: ' ' :: g2 ++ [')']) ++ subScan T fname fuel rem
    | Option.none => c :: subScan T fname fuel rest

/-- One `re.sub(r"(\S+)\s*T\s*(\S+)", r"fname(\1, \2)", s)` pass. -/
def pySubTok (T : Char) (fname : String) (s : String) : String :=
  String.mk (subScan T fname.data s.data.length s.data)

/-- The five substitution passes of `safe_eval_expr`, applied in source
order. -/
def rewriteOps (s : String) : String :=
  pySubTok '↓' "nor"
    (pySubTok '↑' "nand"
      (pySubTok '⊕' "xor"
        (pySubTok '↔' "iff"
          (pySubTok '→' "implies" s))))

/-- The full `safe_eval_expr` pipeline, with the Python expression parser
(`ast.parse(expr, mode="eval")`) left abstract: rewrite the operator
tokens, parse, install the logical functions and visit; every failure is
wrapped as the one `DSLError` kind. -/
def safeEvalText (parse : String → Except Err Expr) (s : String) (ctx : Ctx) :
    Except Err Value :=
  match parse (rewriteOps s) with
  | .error err =>
    .error (.dslError ("Error in safe evaluation of expression: " ++ errText err))
  | .ok ast => safeEvalAst ast ctx

/-! ## Instruction records, `WaitInstruction`, validator and parser

The program format is an ordered list of records (Python dicts with
string keys).  `PyVal` is the JSON-like payload value domain. -/

/-- Payload values of instruction records. -/
inductive PyVal where
  | none
  | bool (b : Bool)
  | num (q : ℚ)
  | str (s : String)
  | list (l : List PyVal)
  | dict (d : List (String × PyVal))
  deriving Repr

/-- An instruction record: a Python dict with string keys, in insertion
order. -/
def Record := List (String × PyVal)

/-- `key in record`. -/
def hasKey (r : Record) (k : String) : Bool := r.any (fun p => p.1 = k)

/-- `record[key]`, at call sites that already guarded with `key in
record`. -/
def getKey (r : Record) (k : String) : PyVal :=
  ((List.find? (fun p => p.1 = k) r).map (·.2)).getD .none

/-- A model of Python `float(s)` restricted to decimal literals: optional
surrounding whitespace, optional sign, digits with an optional fractional
part (at least one digit overall), and an optional exponent.  Forms
outside this subset (`inf`, `nan`, underscores, hex) are not modelled;
both the validator and `WaitInstruction` consult this same function, as
both call `float` on the same text in the sources. -/
def pyFloat (s : String) : Option ℚ :=
  let cs0 := (s.data.dropWhile isPySpace).reverse.dropWhile isPySpace |>.reverse
  let (sgn, cs) :=
    match cs0 with
    | '+' :: t => ((1 : ℚ), t)
    | '-' :: t => ((-1 : ℚ), t)
    | t => ((1 : ℚ), t)
  let intPart := cs.takeWhile Char.isDigit
  let cs1 := cs.drop intPart.length
  let (fracPart, cs2) :=
    match cs1 with
    | '.' :: t => (t.takeWhile Char.isDigit, t.drop (t.takeWhile Char.isDigit).length)
    | t => (([] : List Char), t)
  if intPart.isEmpty && fracPart.isEmpty then Option.none
  else
    let digitsToNat : List Char → Nat := List.foldl (fun n c => n * 10 + (c.toNat - 48)) 0
    let mant : ℚ := (digitsToNat intPart : ℚ) + (digitsToNat fracPart : ℚ) / (10 ^ fracPart.length)
    match cs2 with
    | [] => some (sgn * mant)
    | e :: t =>
      if e = 'e' || e = 'E' then
        let (esgn, t2) :=
          match t with
          | '+' :: u => ((1 : ℤ), u)
          | '-' :: u => ((-1 : ℤ), u)
          | u => ((1 : ℤ), u)
        let eDigits := t2.takeWhile Char.isDigit
        if eDigits.isEmpty || !(t2.drop eDigits.length).isEmpty then Option.none
        else some (sgn * mant * (10 : ℚ) ^ (esgn * (digitsToNat eDigits : ℤ)))
      else Option.none

/-- The 2-second floor applied by `WaitInstruction.__init__`
(`MIN_WAIT_LENGTH = 2`). -/
def waitClamp (q : ℚ) : ℚ := if q < 2 then 2 else q

/-- `WaitInstruction.__init__`: normalize the duration to seconds.  A
numeric duration (including `bool`, an `int` subclass) is taken as
seconds; a string is split into a numeric prefix and a one-character
unit; anything else is a `TypeError`.  A `float` conversion failure is
re-raised as `DSLError`; `duration[-1]` on the empty string is a native
`IndexError` (not a `ValueError`, hence not caught). -/
def waitCtor (v : PyVal) : Except Err ℚ :=
  match v with
  | .num q => .ok (waitClamp q)
  | .bool b => .ok (waitClamp (if b then 1 else 0))
  | .str s =>
    if s.data.isEmpty then .error .indexError
    else
      let unit := (s.data.getLastD ' ').toLower
      match pyFloat (String.mk s.data.dropLast) with
      | Option.none => .error (.dslError ("Invalid wait value " ++ s))
      | some value =>
        if unit = 's' then .ok (waitClamp value)
        else if unit = 'm' then .ok (waitClamp (value * 60))
        else if unit = 'h' then .ok (waitClamp (value * 3600))
        else .error (.dslError "Invalid wait unit. Use s, m, or h.")
  | _ => .error (.typeError "Wait value must be numeric or a string with a unit.")

/-- Python `key in payload` for an arbitrary payload: key membership for a
dict, substring test for a string, element equality for a list, and a
`TypeError` for non-containers. -/
def pyContains (container : PyVal) (key : String) : Except Err Bool :=
  match container with
  | .dict d => .ok (d.any (fun p => p.1 = key))
  | .str s => .ok (decide ((s.splitOn key).length > 1))
  | .list l => .ok (l.any (fun v => match v with | .str t => t = key | _ => false))
  | _ => .error (.typeError "argument is not a container")

/-- Python `payload[key]` with a string key, at call sites that already
established `key in payload`: for a dict the value; for a string or list
a `TypeError` (string/list indices must be integers); other types never
reach this (membership raised first). -/
def getItem (container : PyVal) (key : String) : Except Err PyVal :=
  match container with
  | .dict d =>
    match List.find? (fun p => p.1 = key) d with
    | some p => .ok p.2
    | Option.none => .error .indexError
  | _ => .error (.typeError "indices must be integers")

/-- `SUPPORTED_INDICATORS` of `StrategyValidator`. -/
def supportedIndicators : List String := ["SMA", "EMA", "ATR", "BollingerBands", "MACD", "RSI"]

/-- `StrategyValidator.validate_if`: the condition must be a string and
parse as a Python expression.  Whether a string is a syntactically valid
Python expression (`ast.parse(c, mode="eval")`) is left abstract as the
oracle `exprOk`; the parser never consults it, so no claim depends on it.
Returns the appended error messages (this validator method never
raises). -/
def validateIf (exprOk : String → Bool) (instr : Record) (index : Nat) : List String :=
  match getKey instr "if" with
  | .str condition =>
    if exprOk condition then []
    else ["Error in condition " ++ condition ++ " at position " ++ toString index ++ "."]
  | _ => ["Error at if at position " ++ toString index ++ ": condition must be a string."]

/-- `StrategyValidator.validate_operation`, with the statement-syntax
oracle `stmtOk` for `ast.parse(op, mode="exec")`. -/
def validateOperation (stmtOk : String → Bool) (instr : Record) (index : Nat) : List String :=
  match getKey instr "operation" with
  | .str op =>
    if stmtOk op then []
    else ["Error in operation " ++ op ++ " at position " ++ toString index ++ "."]
  | _ => ["Error in operation at position " ++ toString index ++ ": must be a string."]

/-- `StrategyValidator.validate_indicator`.  Returns the appended error
messages; a non-container payload or an unhashable name raises a native
`TypeError`, which this validator method does not catch. -/
def validateIndicator (instr : Record) (index : Nat) : Except Err (List String) := do
  let data := getKey instr "indicator"
  let hasName ← pyContains data "name"
  if !hasName then
    pure ["Error in indicator at position " ++ toString index ++ ": missing key name."]
  else do
    let indicatorName ← getItem data "name"
    match indicatorName with
    | .list _ | .dict _ => .error (.typeError "unhashable type")
    | .str s =>
      if s ∉ supportedIndicators then
        pure ["Error in indicator at position " ++ toString index ++ ": " ++ s ++ " is not supported."]
      else
        let keys := if s ≠ "MACD" then ["period", "source", "var"]
                    else ["fast", "slow", "signal", "source", "var"]
        keys.foldlM (fun errs key => do
          let h ← pyContains data key
          pure (if h then errs
                else errs ++ ["Error in indicator at position " ++ toString index ++ ": missing key " ++ key ++ "."])) []
    | _ =>
      pure ["Error in indicator at position " ++ toString index ++ ": name is not supported."]

/-- `StrategyValidator.validate_trade`. -/
def validateTrade (instr : Record) (index : Nat) : Except Err (List String) := do
  let data := getKey instr "trade"
  let errs1 ← ["action", "symbol", "quantity"].foldlM (fun errs key => do
    let h ← pyContains data key
    pure (if h then errs
          else errs ++ ["Error in trade at position " ++ toString index ++ ": missing key " ++ key ++ "."])) []
  let hasAction ← pyContains data "action"
  if hasAction then do
    let action ← getItem data "action"
    let ok := match action with | .str s => s = "buy" || s = "sell" | _ => false
    pure (if ok then errs1
          else errs1 ++ ["Error in trade at position " ++ toString index ++ ": invalid action."])
  else
    pure errs1

/-- `StrategyValidator.validate_wait`: numeric (including `bool`), or a
string of length at least 2 whose lowercased last character is a unit and
whose prefix converts with `float`. -/
def validateWait (instr : Record) (index : Nat) : List String :=
  match getKey instr "wait" with
  | .num _ => []
  | .bool _ => []
  | .str value =>
    if value.length < 2 || !((value.data.getLastD ' ').toLower ∈ ['s', 'm', 'h']) then
      ["Error in wait at position " ++ toString index ++ ": invalid format " ++ value ++ "."]
    else
      match pyFloat (String.mk value.data.dropLast) with
      | some _ => []
      | Option.none => ["Error in wait at position " ++ toString index ++ ": could not convert."]
  | _ => ["Error in wait at position " ++ toString index ++ ": value must be numeric or a string with a unit."]

/-- The instruction tree built by `DSLParser`. -/
inductive Instr where
  | compound (instructions : List Instr)
  | ifInstr (condition : PyVal) (block : Instr)
  | operation (op : PyVal)
  | indicator (data : PyVal)
  | trade (data : PyVal)
  | wait (duration : ℚ)
  deriving Repr

/-- `StrategyValidator._validate_block`: one while-loop frame, as fuelled
recursion (a loop iteration and a nested block each consume one unit of
fuel; `fuel = length + 1` at the top entry is always sufficient).  `start`
is the frame's first index (used in the unclosed-block message), `i` the
cursor, `errs` the accumulated error list.  Returns the error list and the
index past the processed block. -/
def vBlockAux (exprOk stmtOk : String → Bool) (prog : List Record) :
    Nat → Nat → Nat → Bool → List String → Except Err (List String × Nat)
  | 0, _, _, _, _ => .error .fuelExhausted
  | fuel + 1, start, i, stopAtEnd, errs =>
    match prog.get? i with
    | Option.none =>
      if stopAtEnd then
        .ok (errs ++ ["Unclosed if block detected starting at position " ++ toString start ++ "."], i)
      else
        .ok (errs, i)
    | some instr =>
      if hasKey instr "if" then do
        let (errs2, j) ← vBlockAux exprOk stmtOk prog fuel (i + 1) (i + 1) true
          (errs ++ validateIf exprOk instr i)
        vBlockAux exprOk stmtOk prog fuel start j stopAtEnd errs2
      else if hasKey instr "end" then
        if stopAtEnd then .ok (errs, i + 1)
        else
          vBlockAux exprOk stmtOk prog fuel start (i + 1) stopAtEnd
            (errs ++ ["Unexpected end at position " ++ toString i ++ " without matching if."])
      else if hasKey instr "operation" then
        vBlockAux exprOk stmtOk prog fuel start (i + 1) stopAtEnd
          (errs ++ validateOperation stmtOk instr i)
      else if hasKey instr "indicator" then do
        let e ← validateIndicator instr i
        vBlockAux exprOk stmtOk prog fuel start (i + 1) stopAtEnd (errs ++ e)
      else if hasKey instr "trade" then do
        let e ← validateTrade instr i
        vBlockAux exprOk stmtOk prog fuel start (i + 1) stopAtEnd (errs ++ e)
      else if hasKey instr "wait" then
        vBlockAux exprOk stmtOk prog fuel start (i + 1) stopAtEnd
          (errs ++ validateWait instr i)
      else
        vBlockAux exprOk stmtOk prog fuel start (i + 1) stopAtEnd errs

/-- `StrategyValidator.validate`: run the top-level block (not expecting
an `end`) and return `(is_valid, errors)`. -/
def validate (exprOk stmtOk : String → Bool) (prog : List Record) :
    Except Err (Bool × List String) := do
  let (errs, _) ← vBlockAux exprOk stmtOk prog (prog.length + 1) 0 0 false []
  pure (errs.isEmpty, errs)

/-- `DSLParser._parse_block`, in lockstep with `vBlockAux`: the same
cursor discipline and dispatch order, but building instruction nodes and
raising on the first fatal condition.  The `validate_*` calls it makes
only accumulate messages (ignored here), except that `validate_indicator`
and `validate_trade` can raise a native `TypeError`, which propagates. -/
def pBlockAux (prog : List Record) :
    Nat → Nat → Nat → Bool → List Instr → Except Err (List Instr × Nat)
  | 0, _, _, _, _ => .error .fuelExhausted
  | fuel + 1, start, i, stopAtEnd, acc =>
    match prog.get? i with
    | Option.none =>
      if stopAtEnd then
        .error (.dslError ("Bloco iniciado na posicao " ++ toString start ++ " nao foi fechado com end."))
      else
        .ok (acc, i)
    | some instr =>
      if hasKey instr "if" then do
        let (blockInstrs, j) ← pBlockAux prog fuel (i + 1) (i + 1) true []
        pBlockAux prog fuel start j stopAtEnd
          (acc ++ [Instr.ifInstr (getKey instr "if") (Instr.compound blockInstrs)])
      else if hasKey instr "end" then
        if stopAtEnd then .ok (acc, i + 1)
        else .error (.dslError "Instrucao end inesperada no nivel superior.")
      else if hasKey instr "operation" then
        pBlockAux prog fuel start (i + 1) stopAtEnd
          (acc ++ [Instr.operation (getKey instr "operation")])
      else if hasKey instr "indicator" then do
        let _ ← validateIndicator instr i
        pBlockAux prog fuel start (i + 1) stopAtEnd
          (acc ++ [Instr.indicator (getKey instr "indicator")])
      else if hasKey instr "trade" then do
        let _ ← validateTrade instr i
        pBlockAux prog fuel start (i + 1) stopAtEnd
          (acc ++ [Instr.trade (getKey instr "trade")])
      else if hasKey instr "wait" then do
        let d ← waitCtor (getKey instr "wait")
        pBlockAux prog fuel start (i + 1) stopAtEnd (acc ++ [Instr.wait d])
      else
        pBlockAux prog fuel start (i + 1) stopAtEnd acc

/-- `DSLParser.parse`: parse the whole list and raise
`ExcessInstructions` if the returned index falls short of the length. -/
def parse (prog : List Record) : Except Err Instr := do
  let (instrs, index) ← pBlockAux prog (prog.length + 1) 0 0 false []
  if index ≠ prog.length then
    .error (.dslError "Excesso de instrucoes nao processadas.")
  else
    pure (Instr.compound instrs)

/-! ## Membership of a disallowed construct (for the rejection claims) -/

/-- Whether the root node of an expression is a construct outside the
allowed grammar: a node kind without a `visit_*` method, a call to a
function outside the allow-list, or a non-simple call. -/
def disallowedRoot : Expr → Bool
  | .other _ _ => true
  | .call (.name fname) _ _ => decide (fname ∉ allowedFunctions)
  | .call _ _ _ => true
  | _ => false

mutual
/-- Whether an expression contains (at any depth) a construct outside the
allowed grammar. -/
def hasDisallowed : Expr → Bool
  | .constant _ => false
  | .name _ => false
  | .binop l _ r => hasDisallowed l || hasDisallowed r
  | .unaryop _ e => hasDisallowed e
  | .boolop _ values => hasDisallowedList values
  | .compare l pairs => hasDisallowed l || hasDisallowedPairs pairs
  | .call f args kws =>
    disallowedRoot (.call f args kws) || hasDisallowed f ||
      hasDisallowedList args || hasDisallowedKws kws
  | .other _ _ => true

/-- `hasDisallowed` over a list of children. -/
def hasDisallowedList : List Expr → Bool
  | [] => false
  | e :: rest => hasDisallowed e || hasDisallowedList rest

/-- `hasDisallowed` over comparison links. -/
def hasDisallowedPairs : List (CmpOpK × Expr) → Bool
  | [] => false
  | p :: rest => hasDisallowed p.2 || hasDisallowedPairs rest

/-- `hasDisallowed` over keyword arguments. -/
def hasDisallowedKws : List (Option String × Expr) → Bool
  | [] => false
  | p :: rest => hasDisallowed p.2 || hasDisallowedKws rest
end

/-! ## Theorems -/

/-- The clamp of `WaitInstruction` is exactly `max · 2`. -/
theorem waitClamp_eq_max (q : ℚ) : waitClamp q = max q 2 := by
  unfold waitClamp
  rcases lt_or_le q 2 with h | h
  · rw [if_pos h, (max_eq_right h.le)]
  · rw [if_neg (not_lt.mpr h), (max_eq_left h)]

/-- C2: at `len(prices) == slow` (here `prices = [1,2,3,4,5]`, `fast = 3`,
`slow = 5`, `signal = 3`), the slow EMA series is empty, so the macd
series is empty and `macd_series[-1]` raises a native `IndexError` — not
the DSL-level `InsufficientData` error the claim (and the function's own
docstring) promises. -/
theorem c2_macd_native_index_error_at_len_eq_slow :
    computeMacd [1, 2, 3, 4, 5] 3 5 3 = .error .indexError := by rfl

/-- C5: `WaitInstruction.__init__` resolves a numeric duration `d` to
`max d 2` seconds, a string `"<n>s"/"<n>m"/"<n>h"` to `max (n*1) 2`,
`max (n*60) 2`, `max (n*3600) 2` seconds, every request below 2 seconds
to exactly 2 seconds without error, and `"3s"` to 3.0 seconds. -/
theorem c5_wait_duration_resolution :
    (∀ q : ℚ, waitCtor (.num q) = .ok (max q 2)) ∧
    (∀ q : ℚ, q < 2 → waitCtor (.num q) = .ok 2) ∧
    (∀ (s : String) (q : ℚ), pyFloat s = some q →
      waitCtor (.str (s ++ "s")) = .ok (max (q * 1) 2) ∧
      waitCtor (.str (s ++ "m")) = .ok (max (q * 60) 2) ∧
      waitCtor (.str (s ++ "h")) = .ok (max (q * 3600) 2)) ∧
    waitCtor (.str "3s") = .ok 3 := by
  have hstr : ∀ (s : String) (q : ℚ) (u : Char), pyFloat s = some q →
      (String.mk (s.data ++ [u])).data.isEmpty = false ∧
      ((String.mk (s.data ++ [u])).data.getLastD ' ') = u ∧
      String.mk ((String.mk (s.data ++ [u])).data.dropLast) = s := by
    intro s q u _
    refine ⟨?_, ?_, ?_⟩
    · simp
    · exact List.getLastD_concat _ _ _
    · simp
  refine ⟨?_, ?_, ?_, ?_⟩
  · intro q
    rw [show waitCtor (.num q) = .ok (waitClamp q) from rfl, waitClamp_eq_max]
  · intro q h
    rw [show waitCtor (.num q) = .ok (waitClamp q) from rfl, waitClamp_eq_max,
      max_eq_right h.le]
  · intro s q h
    have hs := hstr s q 's' h
    have hm := hstr s q 'm' h
    have hh := hstr s q 'h' h
    have hext : ∀ u : Char, s ++ String.mk [u] = String.mk (s.data ++ [u]) := by
      intro u
      apply String.ext
      simp [String.data_append]
    have heqS : PyVal.str (s ++ "s") = PyVal.str (String.mk (s.data ++ ['s'])) :=
      congrArg PyVal.str (hext 's')
    have heqM : PyVal.str (s ++ "m") = PyVal.str (String.mk (s.data ++ ['m'])) :=
      congrArg PyVal.str (hext 'm')
    have heqH : PyVal.str (s ++ "h") = PyVal.str (String.mk (s.data ++ ['h'])) :=
      congrArg PyVal.str (hext 'h')
    have tS : 's'.toLower = 's' := by decide
    have tM : 'm'.toLower = 'm' := by decide
    have tH : 'h'.toLower = 'h' := by decide
    refine ⟨?_, ?_, ?_⟩
    · rw [heqS]
      simp [waitCtor, hs.1, hs.2.1, hs.2.2, h, waitClamp_eq_max, tS]
    · rw [heqM]
      simp [waitCtor, hm.1, hm.2.1, hm.2.2, h, waitClamp_eq_max, tM]
    · rw [heqH]
      simp [waitCtor, hh.1, hh.2.1, hh.2.2, h, waitClamp_eq_max, tH]
  · with_unfolding_all rfl

/-- C5 witness: the numeric request `1` (below the 2-second floor)
resolves to exactly 2 seconds, by the theorem applied at `q = 1`. -/
theorem c5_wait_duration_resolution_witness :
    waitCtor (.num 1) = .ok 2 :=
  c5_wait_duration_resolution.2.1 1 (by norm_num)

/-- C3: if `safe_exec_statement` fails, the variable mapping is left
exactly as it was: the result mapping equals the input mapping whenever
an error is reported.  (The text-to-AST step, which cannot mutate the
mapping, is outside the model; `body` is the parsed module body.) -/
theorem c3_exec_no_partial_mutation (body : List PyStmt) (ctx : Ctx) (err : Err)
    (h : (safeExecStatement body ctx).1 = some err) :
    (safeExecStatement body ctx).2 = ctx := by
  cases body with
  | nil => rfl
  | cons stmt rest =>
    cases rest with
    | cons b bs => rfl
    | nil =>
      cases stmt with
      | other k => rfl
      | exprStmt e =>
        cases e with
        | call f args kws =>
          cases f with
          | name fname =>
            by_cases hp : fname = "print"
            · simp only [safeExecStatement, hp, if_pos] at h ⊢
              cases hargs : visitArgs args ctx with
              | error e' => simp [hargs]
              | ok vs =>
                cases hk : visitKeywords kws ctx with
                | error e' => simp [hargs, hk]
                | ok ws => simp [hargs, hk] at h
            · simp [safeExecStatement, hp]
          | constant v => rfl
          | binop l op r => rfl
          | unaryop op e' => rfl
          | boolop op vs => rfl
          | compare l ps => rfl
          | call f' a' k' => rfl
          | other kind cs => rfl
        | constant v => rfl
        | name n => rfl
        | binop l op r => rfl
        | unaryop op e' => rfl
        | boolop op vs => rfl
        | compare l ps => rfl
        | other kind cs => rfl
      | assign targets value =>
        match targets with
        | [] => rfl
        | [Expr.constant v] => rfl
        | [Expr.name varName] =>
          simp only [safeExecStatement] at h ⊢
          cases hv : visit value ctx with
          | error e' => simp [hv]
          | ok v => simp [hv] at h
        | [Expr.binop l op r] => rfl
        | [Expr.unaryop op e'] => rfl
        | [Expr.boolop op vs] => rfl
        | [Expr.compare l ps] => rfl
        | [Expr.call f' a' k'] => rfl
        | [Expr.other kind cs] => rfl
        | a :: b :: rest => cases a <;> rfl

/-- C3 witness: an assignment whose right-hand side references an unknown
variable fails and leaves the mapping untouched, by the theorem applied
at a concrete statement and mapping. -/
theorem c3_exec_no_partial_mutation_witness :
    (safeExecStatement [.assign [.name "y"] (.name "zzz")] [("x", .num 1)]).2
      = [("x", .num 1)] :=
  c3_exec_no_partial_mutation _ _ (.dslError "Variable zzz not found in context.") rfl

/-- `Except` bind on a success, for unfolding do-notation. -/
theorem exceptBindOk {α β : Type} (v : α) (f : α → Except Err β) :
    (Except.ok v >>= f) = f v := rfl

/-- `Except` bind on a failure, for unfolding do-notation. -/
theorem exceptBindErr {α β : Type} (e : Err) (f : α → Except Err β) :
    ((Except.error e : Except Err α) >>= f) = Except.error e := rfl

/-- A successful `visitAnd` yields only `True` or `False`. -/
theorem visitAnd_ok_bool (values : List Expr) (ctx : Ctx) (v : Value)
    (h : visitAnd values ctx = .ok v) : v = .bool true ∨ v = .bool false := by
  induction values with
  | nil =>
    simp only [visitAnd] at h
    exact Or.inl (Except.ok.inj h).symm
  | cons e rest ih =>
    simp only [visitAnd] at h
    cases hv : visit e ctx with
    | error err => rw [hv, exceptBindErr] at h; exact absurd h (by simp)
    | ok x =>
      rw [hv, exceptBindOk] at h
      by_cases ht : truthy x = true
      · rw [if_pos ht] at h; exact ih h
      · rw [if_neg ht] at h; exact Or.inr (Except.ok.inj h).symm

/-- A successful `visitOr` yields only `True` or `False`. -/
theorem visitOr_ok_bool (values : List Expr) (ctx : Ctx) (v : Value)
    (h : visitOr values ctx = .ok v) : v = .bool true ∨ v = .bool false := by
  induction values with
  | nil =>
    simp only [visitOr] at h
    exact Or.inr (Except.ok.inj h).symm
  | cons e rest ih =>
    simp only [visitOr] at h
    cases hv : visit e ctx with
    | error err => rw [hv, exceptBindErr] at h; exact absurd h (by simp)
    | ok x =>
      rw [hv, exceptBindOk] at h
      by_cases ht : truthy x = true
      · rw [if_pos ht] at h; exact Or.inl (Except.ok.inj h).symm
      · rw [if_neg ht] at h; exact ih h

/-- A prefix of operands that all evaluate truthy passes through the
`and` loop. -/
theorem visitAnd_append_truthy (pre rest : List Expr) (ctx : Ctx)
    (hpre : ∀ p ∈ pre, ∃ vp, visit p ctx = .ok vp ∧ truthy vp = true) :
    visitAnd (pre ++ rest) ctx = visitAnd rest ctx := by
  induction pre with
  | nil => rfl
  | cons p pre' ih =>
    obtain ⟨vp, hv, ht⟩ := hpre p (by simp)
    simp only [List.cons_append, visitAnd, hv, exceptBindOk, if_pos ht]
    exact ih (fun q hq => hpre q (by simp [hq]))

/-- A prefix of operands that all evaluate falsy passes through the
`or` loop. -/
theorem visitOr_append_falsy (pre rest : List Expr) (ctx : Ctx)
    (hpre : ∀ p ∈ pre, ∃ vp, visit p ctx = .ok vp ∧ truthy vp = false) :
    visitOr (pre ++ rest) ctx = visitOr rest ctx := by
  induction pre with
  | nil => rfl
  | cons p pre' ih =>
    obtain ⟨vp, hv, ht⟩ := hpre p (by simp)
    simp only [List.cons_append, visitOr, hv, exceptBindOk, ht,
      Bool.false_eq_true, if_false]
    exact ih (fun q hq => hpre q (by simp [hq]))

/-- C1 counterexample: the expression `0 and (lambda: ...)` contains a
construct outside the allowed grammar (the lambda), yet `safe_eval_expr`
evaluates it successfully to `False` — the `and` loop stops at the falsy
left operand before ever visiting the lambda — so the claim as stated
(every expression containing such a construct raises) is false. -/
theorem c1_rejection_counterexample :
    hasDisallowed (.boolop .andOp [.constant (.num 0), .other "Lambda" []]) = true ∧
    safeEvalAst (.boolop .andOp [.constant (.num 0), .other "Lambda" []]) []
      = .ok (.bool false) := by
  constructor
  · rfl
  · with_unfolding_all rfl

/-- C1 (amended): whenever evaluation reaches a construct outside the
allowed grammar, `safe_eval_expr` fails with the one uniform DSL error
kind and never executes the construct: (1) an expression whose root is a
disallowed construct always fails with `DSLError`; (2) every
`safe_eval_expr` failure is a `DSLError`; (3) `generic_visit` rejects an
unhandled node kind from the kind alone, independent of its children and
of the mapping; (4) a call to an unlisted function is rejected before its
arguments are evaluated, independent of the arguments and of the
mapping. -/
theorem c1_rejection_amended :
    (∀ (e : Expr) (ctx : Ctx), disallowedRoot e = true →
      ∃ msg, safeEvalAst e ctx = .error (.dslError msg)) ∧
    (∀ (e : Expr) (ctx : Ctx) (err : Err), safeEvalAst e ctx = .error err →
      ∃ msg, err = .dslError msg) ∧
    (∀ (kind : String) (children : List Expr) (ctx : Ctx),
      visit (.other kind children) ctx
        = .error (.dslError ("AST node " ++ kind ++ " is not permitted in safe expressions."))) ∧
    (∀ (fname : String) (args : List Expr) (kws : List (Option String × Expr)) (ctx : Ctx),
      fname ∉ allowedFunctions →
      visit (.call (.name fname) args kws) ctx
        = .error (.dslError ("Function call " ++ fname ++ " is not permitted."))) := by
  refine ⟨?_, ?_, ?_, ?_⟩
  · intro e ctx h
    cases e with
    | other kind children => exact ⟨_, rfl⟩
    | call f args kws =>
      cases f with
      | name fname =>
        have hf : fname ∉ allowedFunctions := by
          simpa [disallowedRoot] using h
        refine ⟨"Error in safe evaluation of expression: " ++
          ("Function call " ++ fname ++ " is not permitted."), ?_⟩
        simp [safeEvalAst, visit, hf, errText]
      | constant v => exact ⟨_, rfl⟩
      | binop l op r => exact ⟨_, rfl⟩
      | unaryop op e' => exact ⟨_, rfl⟩
      | boolop op vs => exact ⟨_, rfl⟩
      | compare l ps => exact ⟨_, rfl⟩
      | call f' a' k' => exact ⟨_, rfl⟩
      | other kind cs => exact ⟨_, rfl⟩
    | constant v => simp [disallowedRoot] at h
    | name n => simp [disallowedRoot] at h
    | binop l op r => simp [disallowedRoot] at h
    | unaryop op e' => simp [disallowedRoot] at h
    | boolop op vs => simp [disallowedRoot] at h
    | compare l ps => simp [disallowedRoot] at h
  · intro e ctx err h
    unfold safeEvalAst at h
    cases hv : visit e (setLogicals ctx) with
    | ok v => rw [hv] at h; exact absurd h (by simp)
    | error e' =>
      rw [hv] at h
      exact ⟨_, (Except.error.inj h).symm⟩
  · intro kind children ctx
    rfl
  · intro fname args kws ctx h
    simp [visit, h]

/-- C1 witness: a bare lambda node fails with the uniform DSL error kind,
by the amended theorem applied to `Expr.other "Lambda" []` in the empty
mapping. -/
theorem c1_rejection_amended_witness :
    ∃ msg, safeEvalAst (.other "Lambda" []) [] = .error (.dslError msg) :=
  c1_rejection_amended.1 (.other "Lambda" []) [] rfl

/-- C9: `and`/`or` expressions return a boolean, never the deciding
operand's value: (1) any successful `and`/`or` evaluation yields `True`
or `False`; (2) `2 and 3` evaluates to `True`; (3) it does not evaluate
to `3` (diverging from Python's `and`); (4) the `and` loop stops at the
first falsy operand, so all later operands — arbitrary `post` — are never
evaluated; (5) dually for `or` at the first truthy operand; (6) `x and y`
with `x` falsy returns `False` even though `y` is absent from the
mapping. -/
theorem c9_boolop_returns_boolean :
    (∀ (ctx : Ctx) (op : BoolOpK) (values : List Expr) (v : Value),
      safeEvalAst (.boolop op values) ctx = .ok v →
      v = .bool true ∨ v = .bool false) ∧
    safeEvalAst (.boolop .andOp [.constant (.num 2), .constant (.num 3)]) []
      = .ok (.bool true) ∧
    safeEvalAst (.boolop .andOp [.constant (.num 2), .constant (.num 3)]) []
      ≠ .ok (.num 3) ∧
    (∀ (ctx : Ctx) (pre post : List Expr) (e : Expr) (x : Value),
      (∀ p ∈ pre, ∃ vp, visit p ctx = .ok vp ∧ truthy vp = true) →
      visit e ctx = .ok x → truthy x = false →
      visit (.boolop .andOp (pre ++ e :: post)) ctx = .ok (.bool false)) ∧
    (∀ (ctx : Ctx) (pre post : List Expr) (e : Expr) (x : Value),
      (∀ p ∈ pre, ∃ vp, visit p ctx = .ok vp ∧ truthy vp = false) →
      visit e ctx = .ok x → truthy x = true →
      visit (.boolop .orOp (pre ++ e :: post)) ctx = .ok (.bool true)) ∧
    safeEvalAst (.boolop .andOp [.name "x", .name "y"]) [("x", .num 0)]
      = .ok (.bool false) := by
  have heval : safeEvalAst (.boolop .andOp [.constant (.num 2), .constant (.num 3)]) []
      = .ok (.bool true) := by with_unfolding_all rfl
  refine ⟨?_, heval, ?_, ?_, ?_, ?_⟩
  · intro ctx op values v h
    unfold safeEvalAst at h
    cases hv : visit (.boolop op values) (setLogicals ctx) with
    | error e' => rw [hv] at h; exact absurd h (by simp)
    | ok w =>
      rw [hv] at h
      have hwv : w = v := Except.ok.inj h
      subst hwv
      cases op with
      | andOp => exact visitAnd_ok_bool values _ w hv
      | orOp => exact visitOr_ok_bool values _ w hv
  · intro h
    rw [heval] at h
    have := Except.ok.inj h
    exact absurd this (by simp)
  · intro ctx pre post e x hpre he ht
    have hv : visit (.boolop .andOp (pre ++ e :: post)) ctx
        = visitAnd (pre ++ e :: post) ctx := rfl
    rw [hv, visitAnd_append_truthy pre (e :: post) ctx hpre]
    simp only [visitAnd, he, exceptBindOk, ht, Bool.false_eq_true, if_false]
  · intro ctx pre post e x hpre he ht
    have hv : visit (.boolop .orOp (pre ++ e :: post)) ctx
        = visitOr (pre ++ e :: post) ctx := rfl
    rw [hv, visitOr_append_falsy pre (e :: post) ctx hpre]
    simp only [visitOr, he, exceptBindOk, ht, if_true]
  · with_unfolding_all rfl

/-- C9 witness: in `1 and x and <anything>` with `x = 0`, the loop stops
at `x` with `False` and the trailing operand (an unknown name) is never
evaluated, by the theorem's `and` clause at concrete operands. -/
theorem c9_boolop_returns_boolean_witness :
    visit (.boolop .andOp ([.constant (.num 1)] ++ .name "x" :: [.name "ghost"]))
      [("x", .num 0)] = .ok (.bool false) :=
  c9_boolop_returns_boolean.2.2.2.1 [("x", .num 0)] [.constant (.num 1)]
    [.name "ghost"] (.name "x") (.num 0)
    (by
      intro p hp
      simp only [List.mem_singleton] at hp
      subst hp
      exact ⟨.num 1, rfl, by with_unfolding_all rfl⟩)
    rfl
    (by with_unfolding_all rfl)

/-- C7: each Unicode infix token is textually rewritten 1:1 to its
allow-listed call before parsing, so evaluating the infix form gives the
same result as evaluating the call form for any parser behaviour and any
variable mapping binding the plain names `a` and `b`: the rewriter sends
each infix expression to exactly the call text and leaves the call text
itself unchanged, making the two pipelines coincide. -/
theorem c7_unicode_operator_rewriting :
    rewriteOps "a → b" = "implies(a, b)" ∧
    rewriteOps "a ↔ b" = "iff(a, b)" ∧
    rewriteOps "a ⊕ b" = "xor(a, b)" ∧
    rewriteOps "a ↑ b" = "nand(a, b)" ∧
    rewriteOps "a ↓ b" = "nor(a, b)" ∧
    (∀ (parse : String → Except Err Expr) (ctx : Ctx),
      safeEvalText parse "a → b" ctx = safeEvalText parse "implies(a, b)" ctx ∧
      safeEvalText parse "a ↔ b" ctx = safeEvalText parse "iff(a, b)" ctx ∧
      safeEvalText parse "a ⊕ b" ctx = safeEvalText parse "xor(a, b)" ctx ∧
      safeEvalText parse "a ↑ b" ctx = safeEvalText parse "nand(a, b)" ctx ∧
      safeEvalText parse "a ↓ b" ctx = safeEvalText parse "nor(a, b)" ctx) := by
  have h1 : rewriteOps "a → b" = "implies(a, b)" := by with_unfolding_all rfl
  have h2 : rewriteOps "a ↔ b" = "iff(a, b)" := by with_unfolding_all rfl
  have h3 : rewriteOps "a ⊕ b" = "xor(a, b)" := by with_unfolding_all rfl
  have h4 : rewriteOps "a ↑ b" = "nand(a, b)" := by with_unfolding_all rfl
  have h5 : rewriteOps "a ↓ b" = "nor(a, b)" := by with_unfolding_all rfl
  have g1 : rewriteOps "implies(a, b)" = "implies(a, b)" := by with_unfolding_all rfl
  have g2 : rewriteOps "iff(a, b)" = "iff(a, b)" := by with_unfolding_all rfl
  have g3 : rewriteOps "xor(a, b)" = "xor(a, b)" := by with_unfolding_all rfl
  have g4 : rewriteOps "nand(a, b)" = "nand(a, b)" := by with_unfolding_all rfl
  have g5 : rewriteOps "nor(a, b)" = "nor(a, b)" := by with_unfolding_all rfl
  refine ⟨h1, h2, h3, h4, h5, ?_⟩
  intro parse ctx
  refine ⟨?_, ?_, ?_, ?_, ?_⟩ <;>
    simp only [safeEvalText, h1, h2, h3, h4, h5, g1, g2, g3, g4, g5]

/-- C7 witness: the theorem's pipeline clause applied at a concrete
parser stub and the empty mapping. -/
theorem c7_unicode_operator_rewriting_witness :
    safeEvalText (fun _ => Except.error Err.indexError) "a → b" []
      = safeEvalText (fun _ => Except.error Err.indexError) "implies(a, b)" [] :=
  (c7_unicode_operator_rewriting.2.2.2.2.2 (fun _ => Except.error Err.indexError) []).1

/-- The EMA fold produces one value per remaining price. -/
theorem emaFold_length (k : ℚ) (e : ℚ) (l : List ℚ) :
    (emaFold k e l).length = l.length := by
  induction l generalizing e with
  | nil => rfl
  | cons p rest ih => simp [emaFold, ih]

/-- The last appended EMA value is the fold of the smoothing step over the
remaining prices — the value `compute_ema` returns. -/
theorem emaFold_getLast (k : ℚ) (e : ℚ) (l : List ℚ) (h : l ≠ []) :
    (emaFold k e l).getLast? = some (l.foldl (emaStep k) e) := by
  induction l generalizing e with
  | nil => exact absurd rfl h
  | cons p rest ih =>
    cases rest with
    | nil => rfl
    | cons q rest' =>
      have hrw : emaFold k e (p :: q :: rest')
          = emaStep k e p :: emaFold k (emaStep k e p) (q :: rest') := rfl
      have hrw2 : emaFold k (emaStep k e p) (q :: rest')
          = emaStep k (emaStep k e p) q
              :: emaFold k (emaStep k (emaStep k e p) q) rest' := rfl
      have inner := ih (emaStep k e p) (by simp)
      calc (emaFold k e (p :: q :: rest')).getLast?
          = (emaFold k (emaStep k e p) (q :: rest')).getLast? := by
            rw [hrw, hrw2, List.getLast?_cons_cons]
        _ = some ((q :: rest').foldl (emaStep k) (emaStep k e p)) := inner
        _ = some ((p :: q :: rest').foldl (emaStep k) e) := rfl

/-- C6: for `period ≥ 1`, `compute_ema` and `compute_ema_series` fail
under the same condition `len(prices) < period`, and for
`len(prices) > period` the series has exactly `len(prices) - period`
post-seed values whose last element is the value `compute_ema` returns. -/
theorem c6_ema_series_agreement (prices : List ℚ) (period : Nat)
    (hper : 1 ≤ period) :
    (prices.length < period →
      (∃ m, computeEma prices period = .error (.dslError m)) ∧
      (∃ m, computeEmaSeries prices period = .error (.dslError m))) ∧
    (period < prices.length →
      ∃ s e, computeEmaSeries prices period = .ok s ∧
        s.length = prices.length - period ∧
        s.getLast? = some e ∧
        computeEma prices period = .ok e) := by
  constructor
  · intro hlt
    exact ⟨⟨"Not enough data to calculate EMA with period " ++ toString period ++ ".",
            by simp [computeEma, hlt]⟩,
          ⟨"Not enough data to calculate EMA series with period " ++ toString period ++ ".",
            by simp [computeEmaSeries, hlt]⟩⟩
  · intro hgt
    have hnl : ¬(prices.length < period) := not_lt.mpr hgt.le
    have hlen : (prices.take period).length = period := by
      simp [List.length_take]
      omega
    have hnz : period ≠ 0 := by omega
    have hsma : computeSma (prices.take period) period
        = .ok ((takeLast period (prices.take period)).sum / period) := by
      simp [computeSma, hlen, hnz]
    set k : ℚ := 2 / ((period : ℚ) + 1) with hk
    set seed : ℚ := (takeLast period (prices.take period)).sum / period with hseed
    have hdropNe : prices.drop period ≠ [] := by
      intro hc
      have := congrArg List.length hc
      simp at this
      omega
    refine ⟨emaFold k seed (prices.drop period),
      (prices.drop period).foldl (emaStep k) seed, ?_, ?_, ?_, ?_⟩
    · simp [computeEmaSeries, hnl, hsma, Except.map]
    · rw [emaFold_length]
      simp
    · exact emaFold_getLast k seed (prices.drop period) hdropNe
    · simp [computeEma, hnl, hsma, Except.map]

/-- C6 witness: at `prices = [1,2,3,4,5]`, `period = 3`, the series is
defined, has length 2, and its last element is `compute_ema`'s value, by
the theorem applied there. -/
theorem c6_ema_series_agreement_witness :
    ∃ s e, computeEmaSeries [1, 2, 3, 4, 5] 3 = .ok s ∧
      s.length = ([1, 2, 3, 4, 5] : List ℚ).length - 3 ∧
      s.getLast? = some e ∧
      computeEma [1, 2, 3, 4, 5] 3 = .ok e :=
  (c6_ema_series_agreement [1, 2, 3, 4, 5] 3 (by norm_num)).2 (by norm_num)

/-- One Wilder smoothing step preserves non-negativity. -/
theorem foldl_wilder_nonneg (p : ℚ) (hp : 1 ≤ p) (l : List ℚ)
    (hl : ∀ x ∈ l, 0 ≤ x) (a : ℚ) (ha : 0 ≤ a) :
    0 ≤ l.foldl (wilderStep p) a := by
  induction l generalizing a with
  | nil => exact ha
  | cons x t ih =>
    rw [List.foldl_cons]
    refine ih (fun y hy => hl y (by simp [hy])) _ ?_
    have hx := hl x (by simp)
    unfold wilderStep
    have hnum : 0 ≤ a * (p - 1) + x := by nlinarith
    exact div_nonneg hnum (by linarith)

/-- Every per-step gain is non-negative. -/
theorem rsiGains_nonneg (prices : List ℚ) : ∀ x ∈ rsiGains prices, 0 ≤ x := by
  intro x hx
  simp only [rsiGains, List.mem_map] at hx
  obtain ⟨pq, _, rfl⟩ := hx
  exact le_max_right _ _

/-- Every per-step loss is non-negative. -/
theorem rsiLosses_nonneg (prices : List ℚ) : ∀ x ∈ rsiLosses prices, 0 ≤ x := by
  intro x hx
  simp only [rsiLosses, List.mem_map] at hx
  obtain ⟨pq, _, rfl⟩ := hx
  exact abs_nonneg _

/-- The smoothed average gain is non-negative. -/
theorem rsiAvgGain_nonneg (prices : List ℚ) (period : Nat) (hper : 1 ≤ period) :
    0 ≤ rsiAvgGain prices period := by
  unfold rsiAvgGain
  have hp : (1 : ℚ) ≤ (period : ℚ) := by exact_mod_cast hper
  refine foldl_wilder_nonneg _ hp _ ?_ _ ?_
  · intro x hx
    exact rsiGains_nonneg prices x (List.mem_of_mem_drop hx)
  · refine div_nonneg ?_ (by positivity)
    exact List.sum_nonneg fun x hx => rsiGains_nonneg prices x (List.mem_of_mem_take hx)

/-- The smoothed average loss is non-negative. -/
theorem rsiAvgLoss_nonneg (prices : List ℚ) (period : Nat) (hper : 1 ≤ period) :
    0 ≤ rsiAvgLoss prices period := by
  unfold rsiAvgLoss
  have hp : (1 : ℚ) ≤ (period : ℚ) := by exact_mod_cast hper
  refine foldl_wilder_nonneg _ hp _ ?_ _ ?_
  · intro x hx
    exact rsiLosses_nonneg prices x (List.mem_of_mem_drop hx)
  · refine div_nonneg ?_ (by positivity)
    exact List.sum_nonneg fun x hx => rsiLosses_nonneg prices x (List.mem_of_mem_take hx)

/-- C10: for `period ≥ 1` and at least `period + 1` prices, `compute_rsi`
returns a value in `[0, 100]`: exactly `100` when the smoothed average
loss is zero, and otherwise `100 - 100/(1 + avg_gain/avg_loss)`, which
lies in `[0, 100)`. -/
theorem c10_rsi_range (prices : List ℚ) (period : Nat)
    (hper : 1 ≤ period) (hlen : period + 1 ≤ prices.length) :
    ∃ r, computeRsi prices period = .ok r ∧ 0 ≤ r ∧ r ≤ 100 ∧
      (rsiAvgLoss prices period = 0 → r = 100) ∧
      (rsiAvgLoss prices period ≠ 0 →
        r = 100 - 100 / (1 + rsiAvgGain prices period / rsiAvgLoss prices period) ∧
        r < 100) := by
  have hnl : ¬(prices.length < period + 1) := not_lt.mpr hlen
  have hnz : period ≠ 0 := by omega
  by_cases hz : rsiAvgLoss prices period = 0
  · refine ⟨100, by simp [computeRsi, hnl, hnz, hz], by norm_num, by norm_num,
      fun _ => rfl, fun hne => absurd hz hne⟩
  · have hG := rsiAvgGain_nonneg prices period hper
    have hLpos : 0 < rsiAvgLoss prices period :=
      lt_of_le_of_ne (rsiAvgLoss_nonneg prices period hper) (Ne.symm hz)
    set G := rsiAvgGain prices period
    set L := rsiAvgLoss prices period
    have hrs : 0 ≤ G / L := div_nonneg hG hLpos.le
    have hden : (1 : ℚ) ≤ 1 + G / L := by linarith
    have hdenpos : (0 : ℚ) < 1 + G / L := by linarith
    have hfrac_pos : 0 < 100 / (1 + G / L) := div_pos (by norm_num) hdenpos
    have hfrac_le : 100 / (1 + G / L) ≤ 100 := by
      rw [div_le_iff₀ hdenpos]
      nlinarith
    refine ⟨100 - 100 / (1 + G / L), by simp [computeRsi, hnl, hnz, hz],
      by linarith, by linarith, fun hc => absurd hc hz,
      fun _ => ⟨rfl, by linarith⟩⟩

/-- C10 witness: at `prices = [1, 2]`, `period = 1` the hypotheses are
concrete and the theorem yields a defined RSI in `[0, 100]`. -/
theorem c10_rsi_range_witness :
    ∃ r, computeRsi [1, 2] 1 = .ok r ∧ 0 ≤ r ∧ r ≤ 100 ∧
      (rsiAvgLoss [1, 2] 1 = 0 → r = 100) ∧
      (rsiAvgLoss [1, 2] 1 ≠ 0 →
        r = 100 - 100 / (1 + rsiAvgGain [1, 2] 1 / rsiAvgLoss [1, 2] 1) ∧
        r < 100) :=
  c10_rsi_range [1, 2] 1 (by norm_num) (by norm_num)


/-- One-layer unfolding of `pBlockAux` at positive fuel. -/
theorem pBlockAux_succ (prog : List Record) (fuel start i : Nat) (stop : Bool)
    (acc : List Instr) :
    pBlockAux prog (fuel + 1) start i stop acc = (match prog.get? i with
      | Option.none =>
        if stop then
          .error (.dslError ("Bloco iniciado na posicao " ++ toString start ++ " nao foi fechado com end."))
        else
          .ok (acc, i)
      | some instr =>
        if hasKey instr "if" then do
          let (blockInstrs, j) ← pBlockAux prog fuel (i + 1) (i + 1) true []
          pBlockAux prog fuel start j stop
            (acc ++ [Instr.ifInstr (getKey instr "if") (Instr.compound blockInstrs)])
        else if hasKey instr "end" then
          if stop then .ok (acc, i + 1)
          else .error (.dslError "Instrucao end inesperada no nivel superior.")
        else if hasKey instr "operation" then
          pBlockAux prog fuel start (i + 1) stop
            (acc ++ [Instr.operation (getKey instr "operation")])
        else if hasKey instr "indicator" then do
          let _ ← validateIndicator instr i
          pBlockAux prog fuel start (i + 1) stop
            (acc ++ [Instr.indicator (getKey instr "indicator")])
        else if hasKey instr "trade" then do
          let _ ← validateTrade instr i
          pBlockAux prog fuel start (i + 1) stop
            (acc ++ [Instr.trade (getKey instr "trade")])
        else if hasKey instr "wait" then do
          let d ← waitCtor (getKey instr "wait")
          pBlockAux prog fuel start (i + 1) stop (acc ++ [Instr.wait d])
        else
          pBlockAux prog fuel start (i + 1) stop acc) := rfl

/-- One-layer unfolding of `vBlockAux` at positive fuel. -/
theorem vBlockAux_succ (exprOk stmtOk : String → Bool) (prog : List Record)
    (fuel start i : Nat) (stop : Bool) (errs : List String) :
    vBlockAux exprOk stmtOk prog (fuel + 1) start i stop errs = (match prog.get? i with
      | Option.none =>
        if stop then
          .ok (errs ++ ["Unclosed if block detected starting at position " ++ toString start ++ "."], i)
        else
          .ok (errs, i)
      | some instr =>
        if hasKey instr "if" then do
          let (errs2, j) ← vBlockAux exprOk stmtOk prog fuel (i + 1) (i + 1) true
            (errs ++ validateIf exprOk instr i)
          vBlockAux exprOk stmtOk prog fuel start j stop errs2
        else if hasKey instr "end" then
          if stop then .ok (errs, i + 1)
          else
            vBlockAux exprOk stmtOk prog fuel start (i + 1) stop
              (errs ++ ["Unexpected end at position " ++ toString i ++ " without matching if."])
        else if hasKey instr "operation" then
          vBlockAux exprOk stmtOk prog fuel start (i + 1) stop
            (errs ++ validateOperation stmtOk instr i)
        else if hasKey instr "indicator" then do
          let e ← validateIndicator instr i
          vBlockAux exprOk stmtOk prog fuel start (i + 1) stop (errs ++ e)
        else if hasKey instr "trade" then do
          let e ← validateTrade instr i
          vBlockAux exprOk stmtOk prog fuel start (i + 1) stop (errs ++ e)
        else if hasKey instr "wait" then
          vBlockAux exprOk stmtOk prog fuel start (i + 1) stop
            (errs ++ validateWait instr i)
        else
          vBlockAux exprOk stmtOk prog fuel start (i + 1) stop errs) := rfl

/-- A successful parser block pass never moves the cursor past the end of
the list, and a successful top-level pass (not stopping at `end`) stops
exactly at the length of the list. -/
theorem pBlockAux_index (prog : List Record) :
    ∀ (fuel start i : Nat) (stop : Bool) (acc instrs : List Instr) (j : Nat),
      i ≤ prog.length →
      pBlockAux prog fuel start i stop acc = .ok (instrs, j) →
      j ≤ prog.length ∧ (stop = false → j = prog.length) := by
  intro fuel
  induction fuel with
  | zero =>
    intro start i stop acc instrs j hi h
    simp [pBlockAux] at h
  | succ fuel ih =>
    intro start i stop acc instrs j hi h
    rw [pBlockAux_succ] at h
    cases hgi : prog.get? i with
    | none =>
      rw [hgi] at h
      have hli : prog.length ≤ i := List.get?_eq_none.mp hgi
      cases stop with
      | true => simp at h
      | false =>
        simp at h
        obtain ⟨_, hj⟩ := h
        subst hj
        exact ⟨le_antisymm hli hi ▸ le_refl _, fun _ => le_antisymm hi hli⟩
    | some instr =>
      rw [hgi] at h
      have hilt : i < prog.length := by
        by_contra hc
        rw [List.get?_eq_none.mpr (le_of_not_lt hc)] at hgi
        exact Option.noConfusion hgi
      by_cases h1 : hasKey instr "if"
      · simp only [h1, if_true] at h
        cases hrec : pBlockAux prog fuel (i + 1) (i + 1) true [] with
        | error e => rw [hrec] at h; exact absurd h (by simp [Bind.bind, Except.bind])
        | ok bj =>
          rw [hrec] at h
          obtain ⟨bi, j1⟩ := bj
          have hstep : (do
              let (blockInstrs, j) ← (Except.ok (bi, j1) : Except Err (List Instr × Nat))
              pBlockAux prog fuel start j stop
                (acc ++ [Instr.ifInstr (getKey instr "if") (Instr.compound blockInstrs)]))
              = pBlockAux prog fuel start j1 stop
                (acc ++ [Instr.ifInstr (getKey instr "if") (Instr.compound bi)]) := rfl
          rw [hstep] at h
          have hj1 := ih (i + 1) (i + 1) true [] bi j1 (by omega) hrec
          exact ih start j1 stop _ instrs j hj1.1 h
      · simp only [h1, Bool.false_eq_true, if_false] at h
        by_cases h2 : hasKey instr "end"
        · simp only [h2, if_true] at h
          cases stop with
          | true =>
            simp at h
            obtain ⟨_, hj⟩ := h
            subst hj
            exact ⟨by omega, fun hc => Bool.noConfusion hc⟩
          | false => simp at h
        · simp only [h2, Bool.false_eq_true, if_false] at h
          by_cases h3 : hasKey instr "operation"
          · simp only [h3, if_true] at h
            exact ih start (i + 1) stop _ instrs j (by omega) h
          · simp only [h3, Bool.false_eq_true, if_false] at h
            by_cases h4 : hasKey instr "indicator"
            · simp only [h4, if_true] at h
              cases hvi : validateIndicator instr i with
              | error e => rw [hvi] at h; exact absurd h (by simp [Bind.bind, Except.bind])
              | ok e =>
                rw [hvi] at h
                exact ih start (i + 1) stop _ instrs j (by omega) h
            · simp only [h4, Bool.false_eq_true, if_false] at h
              by_cases h5 : hasKey instr "trade"
              · simp only [h5, if_true] at h
                cases hvt : validateTrade instr i with
                | error e => rw [hvt] at h; exact absurd h (by simp [Bind.bind, Except.bind])
                | ok e =>
                  rw [hvt] at h
                  exact ih start (i + 1) stop _ instrs j (by omega) h
              · simp only [h5, Bool.false_eq_true, if_false] at h
                by_cases h6 : hasKey instr "wait"
                · simp only [h6, if_true] at h
                  cases hw : waitCtor (getKey instr "wait") with
                  | error e => rw [hw] at h; exact absurd h (by simp [Bind.bind, Except.bind])
                  | ok d =>
                    rw [hw] at h
                    exact ih start (i + 1) stop _ instrs j (by omega) h
                · simp only [h6, Bool.false_eq_true, if_false] at h
                  exact ih start (i + 1) stop acc instrs j (by omega) h

/-- The validator only appends to the accumulated error list. -/
theorem vBlockAux_errs_prefix (exprOk stmtOk : String → Bool) (prog : List Record) :
    ∀ (fuel start i : Nat) (stop : Bool) (errs errs' : List String) (j : Nat),
      vBlockAux exprOk stmtOk prog fuel start i stop errs = .ok (errs', j) →
      ∃ tail, errs' = errs ++ tail := by
  intro fuel
  induction fuel with
  | zero =>
    intro start i stop errs errs' j h
    simp [vBlockAux] at h
  | succ fuel ih =>
    intro start i stop errs errs' j h
    rw [vBlockAux_succ] at h
    cases hgi : prog.get? i with
    | none =>
      rw [hgi] at h
      cases stop with
      | true =>
        simp at h
        exact ⟨_, h.1.symm⟩
      | false =>
        simp at h
        exact ⟨[], by simp [h.1.symm]⟩
    | some instr =>
      rw [hgi] at h
      by_cases h1 : hasKey instr "if"
      · simp only [h1, if_true] at h
        cases hrec : vBlockAux exprOk stmtOk prog fuel (i + 1) (i + 1) true
            (errs ++ validateIf exprOk instr i) with
        | error e => rw [hrec] at h; exact absurd h (by simp [Bind.bind, Except.bind])
        | ok p =>
          rw [hrec] at h
          obtain ⟨errs2, j1⟩ := p
          have hstep : (do
              let (errs2, j) ← (Except.ok (errs2, j1) : Except Err (List String × Nat))
              vBlockAux exprOk stmtOk prog fuel start j stop errs2)
              = vBlockAux exprOk stmtOk prog fuel start j1 stop errs2 := rfl
          rw [hstep] at h
          obtain ⟨t1, ht1⟩ := ih (i + 1) (i + 1) true _ errs2 j1 hrec
          obtain ⟨t2, ht2⟩ := ih start j1 stop errs2 errs' j h
          exact ⟨validateIf exprOk instr i ++ t1 ++ t2, by simp [ht2, ht1]⟩
      · simp only [h1, if_false] at h
        by_cases h2 : hasKey instr "end"
        · simp only [h2, if_true] at h
          cases stop with
          | true =>
            simp at h
            exact ⟨[], by simp [h.1.symm]⟩
          | false =>
            simp only [Bool.false_eq_true, if_false] at h
            obtain ⟨t, ht⟩ := ih start (i + 1) false _ errs' j h
            exact ⟨["Unexpected end at position " ++ toString i ++ " without matching if."] ++ t,
              by simp [ht]⟩
        · simp only [h2, if_false] at h
          by_cases h3 : hasKey instr "operation"
          · simp only [h3, if_true] at h
            obtain ⟨t, ht⟩ := ih start (i + 1) stop _ errs' j h
            exact ⟨validateOperation stmtOk instr i ++ t, by simp [ht]⟩
          · simp only [h3, if_false] at h
            by_cases h4 : hasKey instr "indicator"
            · simp only [h4, if_true] at h
              cases hvi : validateIndicator instr i with
              | error e => rw [hvi] at h; exact absurd h (by simp [Bind.bind, Except.bind])
              | ok e =>
                rw [hvi] at h
                obtain ⟨t, ht⟩ := ih start (i + 1) stop _ errs' j h
                exact ⟨e ++ t, by simp [ht]⟩
            · simp only [h4, if_false] at h
              by_cases h5 : hasKey instr "trade"
              · simp only [h5, if_true] at h
                cases hvt : validateTrade instr i with
                | error e => rw [hvt] at h; exact absurd h (by simp [Bind.bind, Except.bind])
                | ok e =>
                  rw [hvt] at h
                  obtain ⟨t, ht⟩ := ih start (i + 1) stop _ errs' j h
                  exact ⟨e ++ t, by simp [ht]⟩
              · simp only [h5, if_false] at h
                by_cases h6 : hasKey instr "wait"
                · simp only [h6, if_true] at h
                  obtain ⟨t, ht⟩ := ih start (i + 1) stop _ errs' j h
                  exact ⟨validateWait instr i ++ t, by simp [ht]⟩
                · simp only [h6, if_false] at h
                  exact ih start (i + 1) stop errs errs' j h


theorem validateWait_ok (instr : Record) (i : Nat)
    (h : validateWait instr i = []) :
    ∃ d, waitCtor (getKey instr "wait") = .ok d := by
  unfold validateWait at h
  cases hv : getKey instr "wait" with
  | num q => exact ⟨waitClamp q, rfl⟩
  | bool b => exact ⟨waitClamp (if b then 1 else 0), rfl⟩
  | none => rw [hv] at h; exact absurd h (by simp)
  | list l => rw [hv] at h; exact absurd h (by simp)
  | dict d => rw [hv] at h; exact absurd h (by simp)
  | str s =>
    rw [hv] at h
    have h' : (if (decide (s.length < 2)
          || !decide ((s.data.getLastD ' ').toLower ∈ ['s', 'm', 'h'])) = true
        then ["Error in wait at position " ++ toString i ++ ": invalid format " ++ s ++ "."]
        else match pyFloat (String.mk s.data.dropLast) with
          | some _ => []
          | Option.none =>
            ["Error in wait at position " ++ toString i ++ ": could not convert."]) = [] := h
    by_cases hlen : s.length < 2
    · rw [if_pos (by rw [decide_eq_true hlen]; rfl)] at h'
      exact absurd h' (by simp)
    · by_cases hmem : (s.data.getLastD ' ').toLower ∈ ['s', 'm', 'h']
      · have hcond : (decide (s.length < 2)
            || !decide ((s.data.getLastD ' ').toLower ∈ ['s', 'm', 'h'])) = false := by
          rw [decide_eq_false hlen, decide_eq_true hmem]
          rfl
        rw [hcond, if_neg (by simp)] at h'
        cases hpf : pyFloat (String.mk s.data.dropLast) with
        | none => rw [hpf] at h'; exact absurd h' (by simp)
        | some q =>
          have hne : s.data.isEmpty = false := by
            cases hd : s.data with
            | nil =>
              exfalso
              apply hlen
              show s.data.length < 2
              rw [hd]
              norm_num
            | cons c cs => rfl
          rw [List.getLastD_eq_getLast?] at hmem
          simp only [List.mem_cons, List.mem_singleton, List.not_mem_nil, or_false] at hmem
          rcases hmem with hu | hu | hu
          · exact ⟨waitClamp q, by simp [waitCtor, hne, hpf, hu]⟩
          · exact ⟨waitClamp (q * 60), by simp [waitCtor, hne, hpf, hu]⟩
          · exact ⟨waitClamp (q * 3600), by simp [waitCtor, hne, hpf, hu]⟩
      · rw [if_pos (by rw [decide_eq_false hlen, decide_eq_false hmem]; rfl)] at h'
        exact absurd h' (by simp)


/-- A list equal to itself with a suffix appended has an empty suffix. -/
theorem append_suffix_nil {α : Type} {a x : List α} (h : a = a ++ x) : x = [] := by
  have hl := congrArg List.length h
  simp only [List.length_append] at hl
  exact List.eq_nil_of_length_eq_zero (by omega)

/-- Mirroring: a validator block pass that returns with no new error
messages corresponds to a parser block pass over the same cursor range
that succeeds and stops at the same index, for any accumulator. -/
theorem vBlockAux_mirror (exprOk stmtOk : String → Bool) (prog : List Record) :
    ∀ (fuel start i : Nat) (stop : Bool) (errs : List String) (j : Nat),
      vBlockAux exprOk stmtOk prog fuel start i stop errs = .ok (errs, j) →
      ∀ acc, ∃ instrs, pBlockAux prog fuel start i stop acc = .ok (instrs, j) := by
  intro fuel
  induction fuel with
  | zero =>
    intro start i stop errs j h acc
    simp [vBlockAux] at h
  | succ fuel ih =>
    intro start i stop errs j h acc
    rw [vBlockAux_succ] at h
    rw [pBlockAux_succ]
    cases hgi : prog.get? i with
    | none =>
      rw [hgi] at h
      cases stop with
      | true =>
        simp only [if_true] at h
        have hpair := Except.ok.inj h
        have herr : errs ++ ["Unclosed if block detected starting at position "
            ++ toString start ++ "."] = errs := congrArg Prod.fst hpair
        exact absurd (append_suffix_nil herr.symm) (by simp)
      | false =>
        simp only [Bool.false_eq_true, if_false] at h ⊢
        have hpair := Except.ok.inj h
        injection hpair with hfst hsnd
        exact ⟨acc, by rw [hsnd]⟩
    | some instr =>
      rw [hgi] at h
      by_cases h1 : hasKey instr "if"
      · simp only [h1, if_true] at h ⊢
        cases hrec : vBlockAux exprOk stmtOk prog fuel (i + 1) (i + 1) true
            (errs ++ validateIf exprOk instr i) with
        | error e => rw [hrec] at h; exact absurd h (by simp [Bind.bind, Except.bind])
        | ok p =>
          obtain ⟨errs2, j1⟩ := p
          rw [hrec] at h
          have hstep : (do
              let (errs2, j) ← (Except.ok (errs2, j1) : Except Err (List String × Nat))
              vBlockAux exprOk stmtOk prog fuel start j stop errs2)
              = vBlockAux exprOk stmtOk prog fuel start j1 stop errs2 := rfl
          rw [hstep] at h
          obtain ⟨t1, ht1⟩ := vBlockAux_errs_prefix exprOk stmtOk prog fuel
            (i + 1) (i + 1) true _ errs2 j1 hrec
          obtain ⟨t2, ht2⟩ := vBlockAux_errs_prefix exprOk stmtOk prog fuel
            start j1 stop errs2 errs j h
          have hflat : errs = errs ++ (validateIf exprOk instr i ++ (t1 ++ t2)) := by
            conv_lhs => rw [ht2, ht1]
            simp
          have hnil := append_suffix_nil hflat
          have hvi : validateIf exprOk instr i = [] := by
            rcases List.append_eq_nil.mp hnil with ⟨hA, _⟩
            exact hA
          have ht1n : t1 = [] := by
            rcases List.append_eq_nil.mp hnil with ⟨_, hB⟩
            rcases List.append_eq_nil.mp hB with ⟨hC, _⟩
            exact hC
          have herrs2 : errs2 = errs := by
            rw [ht1, hvi, ht1n]
            simp
          rw [hvi, List.append_nil] at hrec
          rw [herrs2] at hrec h
          obtain ⟨bi, hbi⟩ := ih (i + 1) (i + 1) true errs j1 hrec []
          obtain ⟨ci, hci⟩ := ih start j1 stop errs j h
            (acc ++ [Instr.ifInstr (getKey instr "if") (Instr.compound bi)])
          refine ⟨ci, ?_⟩
          rw [hbi]
          exact hci
      · simp only [h1, Bool.false_eq_true, if_false] at h ⊢
        by_cases h2 : hasKey instr "end"
        · simp only [h2, if_true] at h ⊢
          cases stop with
          | true =>
            simp only [if_true] at h ⊢
            have hpair := Except.ok.inj h
            injection hpair with hfst hsnd
            exact ⟨acc, by rw [hsnd]⟩
          | false =>
            simp only [Bool.false_eq_true, if_false] at h
            obtain ⟨t, ht⟩ := vBlockAux_errs_prefix exprOk stmtOk prog fuel
              start (i + 1) false _ errs j h
            have hflat : errs = errs ++ (["Unexpected end at position " ++ toString i
                ++ " without matching if."] ++ t) := by
              conv_lhs => rw [ht]
              simp
            exact absurd (append_suffix_nil hflat) (by simp)
        · simp only [h2, Bool.false_eq_true, if_false] at h ⊢
          by_cases h3 : hasKey instr "operation"
          · simp only [h3, if_true] at h ⊢
            obtain ⟨t, ht⟩ := vBlockAux_errs_prefix exprOk stmtOk prog fuel
              start (i + 1) stop _ errs j h
            have hflat : errs = errs ++ (validateOperation stmtOk instr i ++ t) := by
              conv_lhs => rw [ht]
              simp
            have hvo : validateOperation stmtOk instr i = [] :=
              (List.append_eq_nil.mp (append_suffix_nil hflat)).1
            rw [hvo, List.append_nil] at h
            exact ih start (i + 1) stop errs j h _
          · simp only [h3, Bool.false_eq_true, if_false] at h ⊢
            by_cases h4 : hasKey instr "indicator"
            · simp only [h4, if_true] at h ⊢
              cases hvi2 : validateIndicator instr i with
              | error e => rw [hvi2] at h; exact absurd h (by simp [Bind.bind, Except.bind])
              | ok e =>
                rw [hvi2] at h
                have hstep : (do
                    let e ← (Except.ok e : Except Err (List String))
                    vBlockAux exprOk stmtOk prog fuel start (i + 1) stop (errs ++ e))
                    = vBlockAux exprOk stmtOk prog fuel start (i + 1) stop (errs ++ e) := rfl
                rw [hstep] at h
                obtain ⟨t, ht⟩ := vBlockAux_errs_prefix exprOk stmtOk prog fuel
                  start (i + 1) stop _ errs j h
                have hflat : errs = errs ++ (e ++ t) := by
                  conv_lhs => rw [ht]
                  simp
                have he : e = [] := (List.append_eq_nil.mp (append_suffix_nil hflat)).1
                rw [he, List.append_nil] at h
                obtain ⟨instrs, hp⟩ := ih start (i + 1) stop errs j h
                  (acc ++ [Instr.indicator (getKey instr "indicator")])
                exact ⟨instrs, hp⟩
            · simp only [h4, Bool.false_eq_true, if_false] at h ⊢
              by_cases h5 : hasKey instr "trade"
              · simp only [h5, if_true] at h ⊢
                cases hvt : validateTrade instr i with
                | error e => rw [hvt] at h; exact absurd h (by simp [Bind.bind, Except.bind])
                | ok e =>
                  rw [hvt] at h
                  have hstep : (do
                      let e ← (Except.ok e : Except Err (List String))
                      vBlockAux exprOk stmtOk prog fuel start (i + 1) stop (errs ++ e))
                      = vBlockAux exprOk stmtOk prog fuel start (i + 1) stop (errs ++ e) := rfl
                  rw [hstep] at h
                  obtain ⟨t, ht⟩ := vBlockAux_errs_prefix exprOk stmtOk prog fuel
                    start (i + 1) stop _ errs j h
                  have hflat : errs = errs ++ (e ++ t) := by
                    conv_lhs => rw [ht]
                    simp
                  have he : e = [] := (List.append_eq_nil.mp (append_suffix_nil hflat)).1
                  rw [he, List.append_nil] at h
                  obtain ⟨instrs, hp⟩ := ih start (i + 1) stop errs j h
                    (acc ++ [Instr.trade (getKey instr "trade")])
                  exact ⟨instrs, hp⟩
              · simp only [h5, Bool.false_eq_true, if_false] at h ⊢
                by_cases h6 : hasKey instr "wait"
                · simp only [h6, if_true] at h ⊢
                  obtain ⟨t, ht⟩ := vBlockAux_errs_prefix exprOk stmtOk prog fuel
                    start (i + 1) stop _ errs j h
                  have hflat : errs = errs ++ (validateWait instr i ++ t) := by
                    conv_lhs => rw [ht]
                    simp
                  have hw : validateWait instr i = [] :=
                    (List.append_eq_nil.mp (append_suffix_nil hflat)).1
                  rw [hw, List.append_nil] at h
                  obtain ⟨d, hd⟩ := validateWait_ok instr i hw
                  rw [hd]
                  obtain ⟨instrs, hp⟩ := ih start (i + 1) stop errs j h
                    (acc ++ [Instr.wait d])
                  exact ⟨instrs, hp⟩
                · simp only [h6, Bool.false_eq_true, if_false] at h ⊢
                  exact ih start (i + 1) stop errs j h acc


/-- C8: the top-level parse pass consumes the entire list — a successful
`_parse_block` at the top level (start 0, not stopping at `end`) returns
an index equal to the list length — so the excess-instructions check in
`DSLParser.parse` never fires: `parse` is exactly the block-parse result,
and never raises the `ExcessInstructions` error. -/
theorem c8_parse_never_excess (prog : List Record) :
    (∀ (instrs : List Instr) (j : Nat),
      pBlockAux prog (prog.length + 1) 0 0 false [] = .ok (instrs, j) →
      j = prog.length) ∧
    parse prog = (pBlockAux prog (prog.length + 1) 0 0 false []).map
      (fun p => Instr.compound p.1) := by
  constructor
  · intro instrs j h
    exact (pBlockAux_index prog (prog.length + 1) 0 0 false [] instrs j
      (by omega) h).2 rfl
  · unfold parse
    cases hp : pBlockAux prog (prog.length + 1) 0 0 false [] with
    | error e => simp [hp, Except.map, Bind.bind, Except.bind, pure, Except.pure]
    | ok p =>
      obtain ⟨instrs, j⟩ := p
      have hj : j = prog.length := (pBlockAux_index prog (prog.length + 1) 0 0 false []
        instrs j (by omega) hp).2 rfl
      simp [hp, hj, Except.map, Bind.bind, Except.bind, pure, Except.pure]

/-- C8 witness: the theorem's index clause applied to the empty program,
whose block parse returns index 0 = length. -/
theorem c8_parse_never_excess_witness :
    (0 : Nat) = ([] : List Record).length :=
  (c8_parse_never_excess []).1 [] 0 rfl

/-- C4: a program that validates with zero errors also parses without
raising: if `StrategyValidator.validate` returns `(True, [])` (for any
behaviour of the Python expression/statement syntax oracles), then
`DSLParser.parse` returns an instruction tree. -/
theorem c4_valid_implies_parse (exprOk stmtOk : String → Bool)
    (prog : List Record) (h : validate exprOk stmtOk prog = .ok (true, [])) :
    ∃ t, parse prog = .ok t := by
  unfold validate at h
  cases hv : vBlockAux exprOk stmtOk prog (prog.length + 1) 0 0 false [] with
  | error e => rw [hv] at h; exact absurd h (by simp [Bind.bind, Except.bind])
  | ok p =>
    obtain ⟨errs, j⟩ := p
    rw [hv] at h
    have hred : (Except.ok (errs.isEmpty, errs) : Except Err (Bool × List String))
        = .ok (true, []) := h
    have hpair := Except.ok.inj hred
    injection hpair with hb herrs
    rw [herrs] at hv
    obtain ⟨instrs, hp⟩ := vBlockAux_mirror exprOk stmtOk prog
      (prog.length + 1) 0 0 false [] j hv []
    have hj : j = prog.length := (pBlockAux_index prog (prog.length + 1) 0 0 false []
      instrs j (by omega) hp).2 rfl
    exact ⟨Instr.compound instrs, by simp [parse, hp, hj, Bind.bind, Except.bind, pure, Except.pure]⟩

/-- C4 witness: the spec's example program (an `if` block wrapping one
operation) validates with zero errors under oracles that accept its
texts, and therefore parses, by the theorem applied there. -/
theorem c4_valid_implies_parse_witness :
    ∃ t, parse [[("if", PyVal.str "x > 0")], [("operation", PyVal.str "x += 1")],
      [("end", PyVal.bool true)]] = .ok t :=
  c4_valid_implies_parse (fun _ => true) (fun _ => true)
    [[("if", PyVal.str "x > 0")], [("operation", PyVal.str "x += 1")],
      [("end", PyVal.bool true)]]
    (by with_unfolding_all rfl)

end ImperiumEngine
